import Mathlib

/-!
# Error-data strings of the EFA RDM provider (`prov/efa/src/rdm/efa_rdm_error.h`)

A shallow embedding of the three inline functions of the header

* `efa_rdm_error_write_host_id_str`
* `efa_rdm_error_write_conn_str`
* `efa_rdm_error_data_alloc`

over an explicit model of character buffers.  A buffer is the list of its
bytes; a write outside the buffer makes the computation undefined (`none`).
C strings that are only read are given by their characters up to the
terminating NUL.  `int` results are `Int`, `size_t` results are `Nat` with
the reduction modulo `2 ^ 64` written out where a sum depends on run-time
data, `uint64_t` host ids are `Nat` (theorems that depend on the width say
`host_id < 2 ^ 64`).
-/

namespace EfaRdmError

/-! ## Memory and C strings -/

/-- The bytes of one memory object (an array or one allocated block). -/
abbrev Mem := List Char

/-- The terminator of a C string. -/
def NUL : Char := Char.ofNat 0

/-- A C string that the code only reads: its characters before the
terminating NUL, none of which is NUL. -/
structure CStr where
  chars : List Char
  nonul : NUL ∉ chars

/-- Store the bytes `s` at offset `off` of `m`; undefined when they do not fit. -/
def poke (m : Mem) (off : Nat) (s : List Char) : Option Mem :=
  if off + s.length ≤ m.length then
    some (m.take off ++ s ++ m.drop (off + s.length))
  else none

/-- The C string that starts at offset `off` of `m`: the bytes before the first NUL. -/
def cstr (m : Mem) (off : Nat) : List Char :=
  (m.drop off).takeWhile (fun c => c != NUL)

/-- The library function `strlen(m + off)`; undefined when no NUL follows inside the object. -/
def strlen (m : Mem) (off : Nat) : Option Nat :=
  if NUL ∈ m.drop off then some (cstr m off).length else none

/-- The library function `strcpy(dst, src)`: the characters of `src` and the terminator. -/
def strcpy (dst : Mem) (src : List Char) : Option Mem :=
  poke dst 0 (src ++ [NUL])

/-- The library function `strcat(dst, src)`: `src` and a terminator over the terminator of `dst`. -/
def strcat (dst : Mem) (src : List Char) : Option Mem :=
  match strlen dst 0 with
  | none => none
  | some n => poke dst n (src ++ [NUL])

/-! ## The formatting primitive -/

/-- The largest value of `int`. -/
def INT_MAX : Nat := 2 ^ 31 - 1

/-- The library function `snprintf(buf + off, n, ...)` once the format is expanded
to `out`: at most `n - 1` characters of `out` and a terminator are stored, and
the length of the whole of `out` is returned (a negative value when that
length is not representable in `int`). -/
def snprintf (buf : Mem) (off n : Nat) (out : List Char) : Option (Int × Mem) :=
  let ret : Int := if out.length ≤ INT_MAX then (out.length : Int) else -1
  if n = 0 then some (ret, buf)
  else
    match poke buf off (out.take (n - 1) ++ [NUL]) with
    | none => none
    | some b => some (ret, b)

/-- Expansion of a format whose only conversions are `%s`: each `%s` is replaced
by the next argument. -/
def format_s : List Char → List (List Char) → List Char
  | [], _ => []
  | [c], _ => [c]
  | c :: d :: rest, args =>
    if c = '%' ∧ d = 's' then
      match args with
      | a :: more => a ++ format_s rest more
      | [] => format_s rest []
    else c :: format_s (d :: rest) args

/-- The sixteen lowercase hexadecimal digits, in order of value. -/
def hexDigits : List Char := "0123456789abcdef".toList

/-- The lowercase hexadecimal digit of a value below sixteen. -/
def hexChar (d : Nat) : Char := hexDigits.getD d '?'

/-- The value of a hexadecimal digit; sixteen for every other character. -/
def hexDigitVal (c : Char) : Nat := hexDigits.indexOf c

/-- The number a run of hexadecimal digits denotes, most significant digit first. -/
def hexVal (s : List Char) : Nat := s.foldl (fun acc c => 16 * acc + hexDigitVal c) 0

/-- Hexadecimal digits of `n` pushed in front of `acc`, most significant first;
`fuel` bounds the number of digits produced. -/
def hexCore : Nat → Nat → List Char → List Char
  | 0, _, acc => acc
  | fuel + 1, n, acc =>
    if n / 16 = 0 then hexChar (n % 16) :: acc
    else hexCore fuel (n / 16) (hexChar (n % 16) :: acc)

/-- The conversion `%lx`: the hexadecimal digits of `n`, at least one. -/
def fmt_lx (n : Nat) : List Char := hexCore (n + 1) n []

/-- The conversion `%017lx`: `%lx` padded on the left with zeros to seventeen characters. -/
def fmt_017lx (n : Nat) : List Char :=
  List.replicate (17 - (fmt_lx n).length) '0' ++ fmt_lx n

/-- Expansion of the format `"i-%017lx"`. -/
def fmt_host_id (host_id : Nat) : List Char := 'i' :: '-' :: fmt_017lx host_id

/-! ## Constants of the header -/

def HOST_ID_STR_LENGTH : Nat := 19

def NA_STR : List Char := "N/A".toList

def CONN_INFO_FORMAT : List Char :=
  "Local: %s Local host id: %s\tPeer: %s Peer host id: %s".toList

/-- The operator `sizeof` on a string literal: its characters and the terminator. -/
def sizeof_literal (s : List Char) : Nat := s.length + 1

/-- The macro `CONN_INFO_MAX_LENGTH`.  `OFI_ADDRSTRLEN` is defined in a header
outside this file and is a parameter throughout. -/
def CONN_INFO_MAX_LENGTH (OFI_ADDRSTRLEN : Nat) : Nat :=
  sizeof_literal CONN_INFO_FORMAT + HOST_ID_STR_LENGTH * 2 + OFI_ADDRSTRLEN * 2

/-! ## The functions of the header -/

/-- The function `efa_rdm_error_write_host_id_str(host_id, buf)`: the status and the buffer. -/
def efa_rdm_error_write_host_id_str (host_id : Nat) (buf : Mem) : Option (Int × Mem) :=
  if host_id ≠ 0 then
    match snprintf buf 0 (HOST_ID_STR_LENGTH + 1) (fmt_host_id host_id) with
    | none => none
    | some (r, b) => if (HOST_ID_STR_LENGTH : Int) = r then some (0, b) else some (-1, b)
  else some (-1, buf)

/-- The function `efa_rdm_error_write_conn_str`, writing at `buf + off`.  An
address pointer is `none` when it is `NULL`. -/
def efa_rdm_error_write_conn_str (OFI_ADDRSTRLEN : Nat)
    (ep_raw_addr_str peer_raw_addr_str : Option CStr)
    (ep_host_id peer_host_id : Nat) (buf : Mem) (off : Nat) : Option (Int × Mem) :=
  let local_host_id_str : Mem := List.replicate (HOST_ID_STR_LENGTH + 1) NUL
  let peer_host_id_str : Mem := List.replicate (HOST_ID_STR_LENGTH + 1) NUL
  match efa_rdm_error_write_host_id_str ep_host_id local_host_id_str,
        efa_rdm_error_write_host_id_str peer_host_id peer_host_id_str with
  | some (r1, local_host_id_str), some (r2, peer_host_id_str) =>
    match snprintf buf off (CONN_INFO_MAX_LENGTH OFI_ADDRSTRLEN)
        (format_s CONN_INFO_FORMAT
          [ (match ep_raw_addr_str with | some s => s.chars | none => NA_STR),
            (if r1 < 0 then NA_STR else cstr local_host_id_str 0),
            (match peer_raw_addr_str with | some s => s.chars | none => NA_STR),
            (if r2 < 0 then NA_STR else cstr peer_host_id_str 0) ]) with
    | none => none
    | some (ret, b) =>
      if ret < 0 ∨ (CONN_INFO_MAX_LENGTH OFI_ADDRSTRLEN : Int) ≤ ret then some (-1, b)
      else some (0, b)
  | _, _ => none

/-- The token the formatter shows for a host id: what the encoder leaves in a
zeroed scratch array of `HOST_ID_STR_LENGTH + 1` bytes, `NA_STR` when it fails. -/
def host_id_token (host_id : Nat) : List Char :=
  match efa_rdm_error_write_host_id_str host_id (List.replicate (HOST_ID_STR_LENGTH + 1) NUL) with
  | some (r, b) => if r < 0 then NA_STR else cstr b 0
  | none => NA_STR

/-- The address text the formatter shows: `NA_STR` for a `NULL` pointer. -/
def addr_or_na (a : Option CStr) : List Char :=
  match a with
  | some s => s.chars
  | none => NA_STR

/-- The annotation written out, as the specification words it:
`Local: <addr> Local host id: <token>\tPeer: <addr> Peer host id: <token>`.
It is compared with the expansion of `CONN_INFO_FORMAT` in `format_conn`. -/
def conn_text (local_addr local_token peer_addr peer_token : List Char) : List Char :=
  "Local: ".toList ++ local_addr ++ " Local host id: ".toList ++ local_token ++
    "\tPeer: ".toList ++ peer_addr ++ " Peer host id: ".toList ++ peer_token

/-! ## The allocator -/

/-- The allocator state: the live blocks with their contents, and the next fresh address. -/
structure Heap where
  next : Nat
  live : List (Nat × Mem)
  deriving DecidableEq

/-- The addresses of the live allocations. -/
def Heap.allocated (h : Heap) : List Nat := h.live.map Prod.fst

/-- The contents of the live block at address `p`. -/
def Heap.load (h : Heap) (p : Nat) : Option Mem := h.live.lookup p

/-- Replace the contents of the first block at address `p` in a list of blocks. -/
def storeBlock : List (Nat × Mem) → Nat → Mem → List (Nat × Mem)
  | [], _, _ => []
  | b :: bs, p, m => if b.1 = p then (p, m) :: bs else b :: storeBlock bs p m

/-- Replace the contents of the live block at address `p`. -/
def Heap.store (h : Heap) (p : Nat) (m : Mem) : Heap :=
  { h with live := storeBlock h.live p m }

/-- The library function `malloc(size)`.  `fill = none` is the allocator running out
of memory (the result is `NULL`, here `none`); `fill = some junk` is a fresh
block whose byte `i` initially holds `junk i`. -/
def malloc (h : Heap) (size : Nat) (fill : Option (Nat → Char)) : Option Nat × Heap :=
  match fill with
  | none => (none, h)
  | some junk =>
    (some h.next, { next := h.next + 1, live := (h.next, (List.range size).map junk) :: h.live })

/-- The fields of `struct rxr_ep` the header reads. -/
structure rxr_ep where
  host_id : Nat

/-- The fields of `struct efa_rdm_peer` the header reads. -/
structure efa_rdm_peer where
  host_id : Nat

/-- The expression `peer ? peer->host_id : 0`. -/
def peer_host_id (peer : Option efa_rdm_peer) : Nat :=
  match peer with
  | some p => p.host_id
  | none => 0

/-- What a call of `efa_rdm_error_data_alloc` leaves behind: the returned `size_t`,
the value of `*ptr` and the allocator state. -/
structure Outcome where
  ret : Nat
  ptr : Option Nat
  heap : Heap
  deriving DecidableEq

/-- The function `efa_rdm_error_data_alloc(ep, addr, err, prov_errno, ptr)`.
The functions it calls from other files enter by their results:
`base_msg` is `efa_strerror(prov_errno, NULL)`, `peer` is `rxr_ep_get_peer(ep, addr)`,
`ep_addr_str` and `peer_addr_str` are the texts that `rxr_ep_raw_addr_str` and
`rxr_ep_get_peer_raw_addr_str` leave in the two scratch arrays.  `ptr` is the
value of `*ptr` before the call. -/
def efa_rdm_error_data_alloc (OFI_ADDRSTRLEN : Nat) (ep : rxr_ep) (peer : Option efa_rdm_peer)
    (base_msg ep_addr_str peer_addr_str : CStr) (err : Int)
    (fill : Option (Nat → Char)) (h : Heap) (ptr : Option Nat) : Option Outcome :=
  let buflen := (base_msg.chars.length + CONN_INFO_MAX_LENGTH OFI_ADDRSTRLEN + 2) % 2 ^ 64
  match malloc h buflen fill with
  | (none, h1) => some { ret := 0, ptr := ptr, heap := h1 }
  | (some err_data, h1) => do
    let m0 ← h1.load err_data
    let m1 ← strcpy m0 base_msg.chars
    let m2 ← strcat m1 [' ']
    let n ← strlen m2 0
    let (r, m3) ← efa_rdm_error_write_conn_str OFI_ADDRSTRLEN (some ep_addr_str) (some peer_addr_str)
      ep.host_id (peer_host_id peer) m2 n
    if r < 0 then some { ret := 0, ptr := ptr, heap := h1.store err_data m3 }
    else some { ret := buflen, ptr := some err_data, heap := h1.store err_data m3 }

/-! ## The worked example of the specification

`OFI_ADDRSTRLEN` is `96` in the examples. -/

/-- The base text of the worked example. -/
def ex_base : CStr := ⟨"Resource temporarily unavailable".toList, by decide⟩

/-- The local address text of the worked example. -/
def ex_local : CStr := ⟨"fi_addr_0".toList, by decide⟩

/-- The peer address text of the worked example. -/
def ex_peer : CStr := ⟨"fi_addr_1".toList, by decide⟩

/-- An address text of three hundred characters, longer than any capacity bound in the examples. -/
def ex_long : CStr :=
  ⟨List.replicate 300 'a', fun h => absurd (List.eq_of_mem_replicate h) (by decide)⟩

/-- An address text of exactly `96` characters, the longest valid one in the examples. -/
def ex_full : CStr :=
  ⟨List.replicate 96 'a', fun h => absurd (List.eq_of_mem_replicate h) (by decide)⟩

/-- The complete output of the worked example. -/
def ex_output : List Char :=
  "Resource temporarily unavailable Local: fi_addr_0 Local host id: i-00000000000000001\tPeer: fi_addr_1 Peer host id: N/A".toList

/-- The endpoint of the worked example: its host id is `0x1`. -/
def ex_ep : rxr_ep := { host_id := 0x1 }

/-- The allocator state of the examples: nothing allocated yet. -/
def ex_heap : Heap := { next := 0, live := [] }

/-- The initial contents of a fresh block in the examples. -/
def ex_junk : Nat → Char := fun _ => 'x'

/-- The outcome of the worked example: `318` is returned, `*ptr` is the fresh block `0`,
and the block holds the output, a NUL and `199` untouched bytes. -/
def ex_outcome : Outcome :=
  { ret := 318
    ptr := some 0
    heap := { next := 1, live := [(0, ex_output ++ NUL :: List.replicate 199 'x')] } }

/-- A second initial contents of a fresh block, differing from `ex_junk` in every byte. -/
def ex_junk_y : Nat → Char := fun _ => 'y'

/-- The outcome of the worked example when the fresh block initially holds `y` bytes. -/
def ex_outcome_y : Outcome :=
  { ret := 318
    ptr := some 0
    heap := { next := 1, live := [(0, ex_output ++ NUL :: List.replicate 199 'y')] } }

/-- A peer descriptor with host id `0x123`. -/
def ex_peer_desc : efa_rdm_peer := { host_id := 0x123 }

/-- The outcome of the worked example when the peer lookup finds `ex_peer_desc`. -/
def ex_outcome_peer : Outcome :=
  { ret := 318
    ptr := some 0
    heap :=
      { next := 1
        live := [(0, "Resource temporarily unavailable Local: fi_addr_0 Local host id: i-00000000000000001\tPeer: fi_addr_1 Peer host id: i-00000000000000123".toList ++
          NUL :: List.replicate 183 'x')] } }

/-! ## Buffers -/

theorem NUL_ne_of_mem {s : List Char} (h : NUL ∉ s) : ∀ c ∈ s, (c != NUL) = true := by
  intro c hc
  have : c ≠ NUL := fun e => h (e ▸ hc)
  simpa using this

theorem poke_fits {m : Mem} {off : Nat} {s : List Char} (h : off + s.length ≤ m.length) :
    poke m off s = some (m.take off ++ s ++ m.drop (off + s.length)) := by
  simp [poke, h]

theorem poke_length {m m1 : Mem} {off : Nat} {s : List Char} (h : poke m off s = some m1) :
    m1.length = m.length := by
  unfold poke at h
  split at h
  · cases h
    simp
    omega
  · cases h

theorem cstr_terminated (a rest : List Char) (h : NUL ∉ a) : cstr (a ++ NUL :: rest) 0 = a := by
  unfold cstr
  rw [List.drop_zero, List.takeWhile_append_of_pos (NUL_ne_of_mem h)]
  simp

theorem cstr_skip (p m : List Char) : cstr (p ++ m) p.length = cstr m 0 := by
  simp [cstr]

theorem cstr_nonul (m : Mem) (off : Nat) : NUL ∉ cstr m off := by
  intro h
  have := List.mem_takeWhile_imp h
  simp at this

theorem strlen_terminated (a rest : List Char) (h : NUL ∉ a) :
    strlen (a ++ NUL :: rest) 0 = some a.length := by
  unfold strlen
  rw [cstr_terminated a rest h]
  simp

/-! ## Hexadecimal digits -/

theorem hexChar_ne_NUL (d : Nat) : hexChar d ≠ NUL := by
  by_cases h : d < 16
  · interval_cases d <;> decide
  · have : hexChar d = '?' := by
      have hlen : hexDigits.length = 16 := by decide
      unfold hexChar
      rw [List.getD_eq_default]
      omega
    rw [this]; decide

theorem hexCore_acc (fuel : Nat) : ∀ (n : Nat) (acc : List Char),
    hexCore fuel n acc = hexCore fuel n [] ++ acc := by
  induction fuel with
  | zero => intro n acc; simp [hexCore]
  | succ fuel ih =>
    intro n acc
    simp only [hexCore]
    split
    · simp
    · rw [ih (n / 16) (hexChar (n % 16) :: acc), ih (n / 16) [hexChar (n % 16)]]
      simp

theorem hexCore_length_le (fuel : Nat) : ∀ (k n : Nat), 0 < k → n < 16 ^ k →
    (hexCore fuel n []).length ≤ k := by
  induction fuel with
  | zero => intro k n _ _; simp [hexCore]
  | succ fuel ih =>
    intro k n hk hn
    simp only [hexCore]
    split
    · simpa using hk
    · rename_i hq
      rw [hexCore_acc]
      have hk2 : 2 ≤ k := by
        by_contra hlt
        have : k = 1 := by omega
        subst this
        apply hq
        simp at hn
        omega
      have hq2 : n / 16 < 16 ^ (k - 1) := by
        have : 16 ^ k = 16 ^ (k - 1) * 16 := by
          rw [← pow_succ]; congr 1; omega
        rw [this] at hn
        exact Nat.div_lt_of_lt_mul (by rwa [Nat.mul_comm] at hn)
      have := ih (k - 1) (n / 16) (by omega) hq2
      simp
      omega

theorem hexCore_nonul (fuel n : Nat) : NUL ∉ hexCore fuel n [] := by
  induction fuel generalizing n with
  | zero => simp [hexCore]
  | succ fuel ih =>
    simp only [hexCore]
    split
    · simp; exact (hexChar_ne_NUL _).symm
    · rw [hexCore_acc]
      simp
      exact ⟨ih _, (hexChar_ne_NUL _).symm⟩

theorem fmt_lx_length_le (n : Nat) (h : n < 2 ^ 64) : (fmt_lx n).length ≤ 16 :=
  hexCore_length_le (n + 1) 16 n (by decide) (by norm_num at h ⊢; exact h)

theorem fmt_017lx_length (n : Nat) (h : n < 2 ^ 64) : (fmt_017lx n).length = 17 := by
  have := fmt_lx_length_le n h
  simp [fmt_017lx]
  omega

theorem fmt_host_id_length (n : Nat) (h : n < 2 ^ 64) : (fmt_host_id n).length = 19 := by
  simp [fmt_host_id, fmt_017lx_length n h]

theorem fmt_host_id_nonul (n : Nat) : NUL ∉ fmt_host_id n := by
  have h := hexCore_nonul (n + 1) n
  simp only [fmt_host_id, fmt_017lx, fmt_lx, List.mem_cons, List.mem_append, List.mem_replicate]
  intro hc
  rcases hc with hc | hc | hc | hc
  · exact absurd hc (by decide)
  · exact absurd hc (by decide)
  · exact absurd hc.2 (by decide)
  · exact h hc

/-! ## The formatting primitive -/

theorem snprintf_fits (buf : Mem) (off n : Nat) (out : List Char) (hn : 0 < n)
    (h : off + n ≤ buf.length) :
    snprintf buf off n out =
      some ((if out.length ≤ INT_MAX then (out.length : Int) else -1),
        buf.take off ++ (out.take (n - 1) ++ [NUL]) ++
          buf.drop (off + (min (n - 1) out.length + 1))) := by
  have hlen : off + (out.take (n - 1) ++ [NUL]).length ≤ buf.length := by
    simp
    omega
  have hn0 : n ≠ 0 := by omega
  simp only [snprintf, hn0, if_false, poke_fits hlen]
  simp

theorem format_conn (a b c d : List Char) :
    format_s CONN_INFO_FORMAT [a, b, c, d] = conn_text a b c d := by
  simp [format_s, CONN_INFO_FORMAT, conn_text]

theorem conn_text_length (a b c d : List Char) :
    (conn_text a b c d).length = 45 + a.length + b.length + c.length + d.length := by
  simp [conn_text]
  omega

theorem CONN_INFO_MAX_LENGTH_eq (A : Nat) : CONN_INFO_MAX_LENGTH A = 92 + 2 * A := by
  simp [CONN_INFO_MAX_LENGTH, sizeof_literal, CONN_INFO_FORMAT, HOST_ID_STR_LENGTH]
  omega

theorem conn_text_nonul (a b c d : List Char) (ha : NUL ∉ a) (hb : NUL ∉ b) (hc : NUL ∉ c)
    (hd : NUL ∉ d) : NUL ∉ conn_text a b c d := by
  simp only [conn_text, List.mem_append, not_or]
  refine ⟨⟨⟨⟨⟨⟨⟨?_, ha⟩, ?_⟩, hb⟩, ?_⟩, hc⟩, ?_⟩, hd⟩ <;> decide

theorem NA_STR_nonul : NUL ∉ NA_STR := by decide

theorem addr_or_na_nonul (a : Option CStr) : NUL ∉ addr_or_na a := by
  cases a with
  | none => exact NA_STR_nonul
  | some s => exact s.nonul

/-! ## The host-id encoder -/

theorem fmt_host_id_length_ge (n : Nat) : 19 ≤ (fmt_host_id n).length := by
  simp [fmt_host_id, fmt_017lx]
  omega

theorem write_host_id_str_eq (host_id : Nat) (buf : Mem) (h0 : host_id ≠ 0)
    (hbuf : HOST_ID_STR_LENGTH + 1 ≤ buf.length) :
    efa_rdm_error_write_host_id_str host_id buf =
      some ((if (fmt_host_id host_id).length = 19 then 0 else -1),
        (fmt_host_id host_id).take 19 ++ NUL :: buf.drop 20) := by
  have hge := fmt_host_id_length_ge host_id
  unfold efa_rdm_error_write_host_id_str
  rw [if_pos h0, snprintf_fits buf 0 (HOST_ID_STR_LENGTH + 1) _ (by simp) (by simpa using hbuf)]
  simp only [HOST_ID_STR_LENGTH] at *
  by_cases hl : (fmt_host_id host_id).length = 19
  · have h1 : (19 : Nat) ≤ INT_MAX := by decide
    simp [hl, h1]
  · have hmin : min 19 (fmt_host_id host_id).length = 19 := by omega
    by_cases h1 : (fmt_host_id host_id).length ≤ INT_MAX
    · have hne : ¬ ((19 : Int) = ((fmt_host_id host_id).length : Int)) := by omega
      simp [hl, h1, hne, hmin]
    · simp [hl, h1, hmin]

theorem write_host_id_str_zero (buf : Mem) :
    efa_rdm_error_write_host_id_str 0 buf = some (-1, buf) := by
  simp [efa_rdm_error_write_host_id_str]

theorem host_id_token_eq (host_id : Nat) :
    host_id_token host_id =
      if host_id ≠ 0 ∧ (fmt_host_id host_id).length = 19 then fmt_host_id host_id
      else NA_STR := by
  unfold host_id_token
  by_cases h0 : host_id = 0
  · subst h0
    simp [write_host_id_str_zero]
  · rw [write_host_id_str_eq host_id _ h0 (by simp)]
    by_cases hl : (fmt_host_id host_id).length = 19
    · have ht : (fmt_host_id host_id).take 19 = fmt_host_id host_id := by
        rw [List.take_of_length_le (by omega)]
      simp only [hl, if_true, ht, h0, ne_eq, not_false_eq_true, and_self]
      simp [cstr_terminated _ _ (fmt_host_id_nonul host_id)]
    · simp [hl]

theorem host_id_token_nonul (host_id : Nat) : NUL ∉ host_id_token host_id := by
  rw [host_id_token_eq]
  split
  · exact fmt_host_id_nonul host_id
  · exact NA_STR_nonul

theorem host_id_token_length_le (host_id : Nat) : (host_id_token host_id).length ≤ 19 := by
  rw [host_id_token_eq]
  split
  · rename_i h; omega
  · decide

theorem host_id_token_zero : host_id_token 0 = NA_STR := by
  simp [host_id_token_eq]

theorem host_id_token_of_lt (host_id : Nat) (h0 : host_id ≠ 0) (h : host_id < 2 ^ 64) :
    host_id_token host_id = fmt_host_id host_id := by
  simp [host_id_token_eq, h0, fmt_host_id_length host_id h]

/-! ## The formatter -/

theorem write_conn_str_eq (A : Nat) (a1 a2 : Option CStr) (h1 h2 : Nat) (buf : Mem) (off : Nat) :
    efa_rdm_error_write_conn_str A a1 a2 h1 h2 buf off =
      match snprintf buf off (CONN_INFO_MAX_LENGTH A)
          (conn_text (addr_or_na a1) (host_id_token h1) (addr_or_na a2) (host_id_token h2)) with
      | none => none
      | some (ret, b) =>
        if ret < 0 ∨ (CONN_INFO_MAX_LENGTH A : Int) ≤ ret then some (-1, b) else some (0, b) := by
  have tot : ∀ h : Nat, ∃ r b,
      efa_rdm_error_write_host_id_str h (List.replicate (HOST_ID_STR_LENGTH + 1) NUL)
        = some (r, b) := by
    intro h
    by_cases h0 : h = 0
    · subst h0; exact ⟨_, _, write_host_id_str_zero _⟩
    · exact ⟨_, _, write_host_id_str_eq h _ h0 (by simp)⟩
  obtain ⟨r1, b1, e1⟩ := tot h1
  obtain ⟨r2, b2, e2⟩ := tot h2
  have t1 : host_id_token h1 = if r1 < 0 then NA_STR else cstr b1 0 := by
    simp [host_id_token, e1]
  have t2 : host_id_token h2 = if r2 < 0 then NA_STR else cstr b2 0 := by
    simp [host_id_token, e2]
  unfold efa_rdm_error_write_conn_str
  simp only [e1, e2, format_conn, ← t1, ← t2]
  rfl

theorem write_conn_str_spec (A : Nat) (a1 a2 : Option CStr) (h1 h2 : Nat) (buf : Mem) (off : Nat)
    (hA : CONN_INFO_MAX_LENGTH A ≤ INT_MAX) (hroom : off + CONN_INFO_MAX_LENGTH A ≤ buf.length) :
    efa_rdm_error_write_conn_str A a1 a2 h1 h2 buf off =
      some ((if CONN_INFO_MAX_LENGTH A ≤
            (conn_text (addr_or_na a1) (host_id_token h1) (addr_or_na a2)
              (host_id_token h2)).length then -1 else 0),
        buf.take off ++
          ((conn_text (addr_or_na a1) (host_id_token h1) (addr_or_na a2)
              (host_id_token h2)).take (CONN_INFO_MAX_LENGTH A - 1) ++ [NUL]) ++
          buf.drop (off + (min (CONN_INFO_MAX_LENGTH A - 1)
            (conn_text (addr_or_na a1) (host_id_token h1) (addr_or_na a2)
              (host_id_token h2)).length + 1))) := by
  have hpos : 0 < CONN_INFO_MAX_LENGTH A := by rw [CONN_INFO_MAX_LENGTH_eq]; omega
  rw [write_conn_str_eq, snprintf_fits buf off _ _ hpos hroom]
  generalize conn_text (addr_or_na a1) (host_id_token h1) (addr_or_na a2) (host_id_token h2) = t
  by_cases hi : t.length ≤ INT_MAX
  · by_cases hm : CONN_INFO_MAX_LENGTH A ≤ t.length
    · have : (CONN_INFO_MAX_LENGTH A : Int) ≤ (t.length : Int) := by exact_mod_cast hm
      simp [hi, hm, this]
    · have : ¬ ((CONN_INFO_MAX_LENGTH A : Int) ≤ (t.length : Int)) := by
        intro h; exact hm (by exact_mod_cast h)
      have h0 : ¬ ((t.length : Int) < 0) := by omega
      simp [hi, hm, this]
  · have hm : CONN_INFO_MAX_LENGTH A ≤ t.length := by omega
    simp [hi, hm]

/-! ## The builder -/

theorem strcpy_spec (m : Mem) (s : List Char) (h : s.length + 1 ≤ m.length) :
    strcpy m s = some (s ++ NUL :: m.drop (s.length + 1)) := by
  unfold strcpy
  rw [poke_fits (by simpa using h)]
  simp

theorem strcat_spec (a r s : List Char) (ha : NUL ∉ a) (h : s.length ≤ r.length) :
    strcat (a ++ NUL :: r) s = some (a ++ s ++ NUL :: r.drop s.length) := by
  unfold strcat
  rw [strlen_terminated a r ha]
  simp only
  rw [poke_fits (by simp; omega)]
  simp [List.take_append_eq_append_take, List.drop_append_eq_append_drop]

theorem data_alloc_nomem (A : Nat) (ep : rxr_ep) (peer : Option efa_rdm_peer)
    (base_msg ep_addr_str peer_addr_str : CStr) (err : Int) (h : Heap) (ptr : Option Nat) :
    efa_rdm_error_data_alloc A ep peer base_msg ep_addr_str peer_addr_str err none h ptr =
      some { ret := 0, ptr := ptr, heap := h } := by
  simp [efa_rdm_error_data_alloc, malloc]

theorem data_alloc_spec (A : Nat) (ep : rxr_ep) (peer : Option efa_rdm_peer)
    (base_msg ep_addr_str peer_addr_str : CStr) (err : Int) (junk : Nat → Char) (h : Heap)
    (ptr : Option Nat)
    (hA : CONN_INFO_MAX_LENGTH A ≤ INT_MAX)
    (hB : base_msg.chars.length + CONN_INFO_MAX_LENGTH A + 2 < 2 ^ 64)
    (text : List Char)
    (htext : text = conn_text ep_addr_str.chars (host_id_token ep.host_id) peer_addr_str.chars
      (host_id_token (peer_host_id peer))) :
    efa_rdm_error_data_alloc A ep peer base_msg ep_addr_str peer_addr_str err (some junk) h ptr =
      some
        { ret := if CONN_INFO_MAX_LENGTH A ≤ text.length then 0
            else base_msg.chars.length + CONN_INFO_MAX_LENGTH A + 2
          ptr := if CONN_INFO_MAX_LENGTH A ≤ text.length then ptr else some h.next
          heap :=
            { next := h.next + 1
              live := (h.next,
                base_msg.chars ++ ' ' :: (text.take (CONN_INFO_MAX_LENGTH A - 1) ++ NUL ::
                  ((List.range (base_msg.chars.length + CONN_INFO_MAX_LENGTH A + 2)).map junk).drop
                    (base_msg.chars.length + min (CONN_INFO_MAX_LENGTH A - 1) text.length + 2)))
                :: h.live } } := by
  have hM := CONN_INFO_MAX_LENGTH_eq A
  have hmod : (base_msg.chars.length + CONN_INFO_MAX_LENGTH A + 2) % 2 ^ 64
      = base_msg.chars.length + CONN_INFO_MAX_LENGTH A + 2 := Nat.mod_eq_of_lt hB
  generalize hm0 : (List.range (base_msg.chars.length + CONN_INFO_MAX_LENGTH A + 2)).map junk = m0
  have hm0len : m0.length = base_msg.chars.length + CONN_INFO_MAX_LENGTH A + 2 := by
    rw [← hm0]; simp
  have hsp : NUL ∉ base_msg.chars ++ [' '] := by
    simp only [List.mem_append, not_or]
    exact ⟨base_msg.nonul, by decide⟩
  have e1 := strcpy_spec m0 base_msg.chars (by omega)
  have e2 := strcat_spec base_msg.chars (m0.drop (base_msg.chars.length + 1)) [' ']
    base_msg.nonul (by simp; omega)
  have e3 := strlen_terminated (base_msg.chars ++ [' '])
    ((m0.drop (base_msg.chars.length + 1)).drop 1) hsp
  have e4 := write_conn_str_spec A (some ep_addr_str) (some peer_addr_str) ep.host_id
    (peer_host_id peer)
    (base_msg.chars ++ [' '] ++ NUL :: (m0.drop (base_msg.chars.length + 1)).drop 1)
    (base_msg.chars ++ [' ']).length hA (by simp; omega)
  simp only [addr_or_na, ← htext] at e4
  rw [List.take_left, List.drop_append, List.drop_succ_cons, List.drop_drop, List.drop_drop] at e4
  have hoff : base_msg.chars.length + 1 + 1 + min (CONN_INFO_MAX_LENGTH A - 1) text.length
      = base_msg.chars.length + min (CONN_INFO_MAX_LENGTH A - 1) text.length + 2 := by omega
  rw [hoff] at e4
  unfold efa_rdm_error_data_alloc
  simp only [hmod, malloc, hm0, Heap.load, List.lookup, beq_self_eq_true, Option.bind_eq_bind,
    Option.some_bind, e1]
  simp only [List.length_singleton, List.drop_drop] at e2 e3
  simp only [e2, Option.some_bind, e3, e4]
  by_cases hfail : CONN_INFO_MAX_LENGTH A ≤ text.length
  · simp [hfail, Heap.store, storeBlock]
  · simp [hfail, Heap.store, storeBlock]

/-! ## Reading hexadecimal digits back -/

theorem hexChar_mem (d : Nat) (h : d < 16) : hexChar d ∈ hexDigits := by
  interval_cases d <;> decide

theorem hexDigitVal_hexChar (d : Nat) (h : d < 16) : hexDigitVal (hexChar d) = d := by
  interval_cases d <;> decide

theorem hexVal_snoc (s : List Char) (c : Char) :
    hexVal (s ++ [c]) = 16 * hexVal s + hexDigitVal c := by
  simp [hexVal, List.foldl_append]

theorem hexVal_zeros (k : Nat) (s : List Char) : hexVal (List.replicate k '0' ++ s) = hexVal s := by
  induction k with
  | zero => simp
  | succ k ih =>
    have h0 : hexDigitVal '0' = 0 := by decide
    simp only [hexVal, List.replicate_succ, List.cons_append, List.foldl_cons, h0] at ih ⊢
    simpa using ih

theorem hexVal_hexCore (fuel : Nat) : ∀ n : Nat, n < fuel → hexVal (hexCore fuel n []) = n := by
  induction fuel with
  | zero => intro n h; omega
  | succ fuel ih =>
    intro n hn
    simp only [hexCore]
    split
    · rename_i hq
      have : hexVal [hexChar (n % 16)] = hexDigitVal (hexChar (n % 16)) := by simp [hexVal]
      rw [this, hexDigitVal_hexChar _ (Nat.mod_lt _ (by decide))]
      omega
    · rename_i hq
      rw [hexCore_acc, hexVal_snoc, hexDigitVal_hexChar _ (Nat.mod_lt _ (by decide)),
        ih (n / 16) (by omega)]
      omega

theorem hexCore_mem (fuel n : Nat) : ∀ c ∈ hexCore fuel n [], c ∈ hexDigits := by
  induction fuel generalizing n with
  | zero => simp [hexCore]
  | succ fuel ih =>
    simp only [hexCore]
    split
    · intro c hc
      simp only [List.mem_singleton] at hc
      subst hc
      exact hexChar_mem _ (Nat.mod_lt _ (by decide))
    · rw [hexCore_acc]
      intro c hc
      simp only [List.mem_append, List.mem_singleton] at hc
      rcases hc with hc | hc
      · exact ih _ c hc
      · subst hc
        exact hexChar_mem _ (Nat.mod_lt _ (by decide))

theorem fmt_017lx_mem (n : Nat) : ∀ c ∈ fmt_017lx n, c ∈ hexDigits := by
  intro c hc
  simp only [fmt_017lx, List.mem_append, List.mem_replicate] at hc
  rcases hc with hc | hc
  · rw [hc.2]; decide
  · exact hexCore_mem _ _ c hc

theorem hexVal_fmt_017lx (n : Nat) : hexVal (fmt_017lx n) = n := by
  rw [fmt_017lx, hexVal_zeros]
  exact hexVal_hexCore (n + 1) n (by omega)

/-! ## The formatter: what it leaves in the buffer -/

theorem cstr_at (p s rest : List Char) (off : Nat) (hp : p.length = off) (hs : NUL ∉ s) :
    cstr (p ++ (s ++ NUL :: rest)) off = s := by
  subst hp
  rw [cstr_skip, cstr_terminated s rest hs]

theorem write_conn_str_cases (A : Nat) (a1 a2 : Option CStr) (h1 h2 : Nat) (buf : Mem) (off : Nat)
    (r : Int) (b : Mem) (text : List Char)
    (htext : text = conn_text (addr_or_na a1) (host_id_token h1) (addr_or_na a2) (host_id_token h2))
    (h : efa_rdm_error_write_conn_str A a1 a2 h1 h2 buf off = some (r, b)) :
    b = buf.take off ++ (text.take (CONN_INFO_MAX_LENGTH A - 1) ++ NUL ::
        buf.drop (off + min (CONN_INFO_MAX_LENGTH A - 1) text.length + 1)) ∧
      off + min (CONN_INFO_MAX_LENGTH A - 1) text.length + 1 ≤ buf.length ∧
      ((r = 0 ∧ text.length < CONN_INFO_MAX_LENGTH A ∧ text.length ≤ INT_MAX) ∨
        (r = -1 ∧ (CONN_INFO_MAX_LENGTH A ≤ text.length ∨ INT_MAX < text.length))) := by
  have hpos : CONN_INFO_MAX_LENGTH A ≠ 0 := by rw [CONN_INFO_MAX_LENGTH_eq]; omega
  rw [write_conn_str_eq, ← htext] at h
  by_cases hfit : off + (text.take (CONN_INFO_MAX_LENGTH A - 1) ++ [NUL]).length ≤ buf.length
  · simp only [snprintf, hpos, if_false, poke_fits hfit] at h
    have hfit2 : off + min (CONN_INFO_MAX_LENGTH A - 1) text.length + 1 ≤ buf.length := by
      simpa [Nat.add_assoc] using hfit
    simp only [List.length_append, List.length_take, List.length_singleton] at h
    by_cases hi : text.length ≤ INT_MAX
    · by_cases hm : CONN_INFO_MAX_LENGTH A ≤ text.length
      · have hc : (CONN_INFO_MAX_LENGTH A : Int) ≤ (text.length : Int) := by exact_mod_cast hm
        simp only [hi, if_true, hc, or_true, Option.some.injEq, Prod.mk.injEq] at h
        refine ⟨?_, hfit2, Or.inr ⟨h.1.symm, Or.inl hm⟩⟩
        rw [← h.2]
        simp [Nat.add_assoc]
      · have hc : ¬ ((CONN_INFO_MAX_LENGTH A : Int) ≤ (text.length : Int)) := by
          intro hh; exact hm (by exact_mod_cast hh)
        have hn : ¬ ((text.length : Int) < 0) := by omega
        simp only [hi, if_true, hc, hn, or_self, if_false, Option.some.injEq,
          Prod.mk.injEq] at h
        refine ⟨?_, hfit2, Or.inl ⟨h.1.symm, by omega, hi⟩⟩
        rw [← h.2]
        simp [Nat.add_assoc]
    · simp only [hi, if_false, Int.reduceNeg, Int.reduceLT, true_or, if_true,
        Option.some.injEq, Prod.mk.injEq] at h
      refine ⟨?_, hfit2, Or.inr ⟨h.1.symm, Or.inr (by omega)⟩⟩
      rw [← h.2]
      simp [Nat.add_assoc]
  · have hnone : poke buf off (text.take (CONN_INFO_MAX_LENGTH A - 1) ++ [NUL]) = none := by
      simp only [poke, hfit, if_false]
    simp only [snprintf, hpos, if_false, hnone] at h
    cases h

theorem write_conn_str_ok (A : Nat) (a1 a2 : Option CStr) (h1 h2 : Nat) (buf : Mem)
    (off : Nat) (b : Mem)
    (h : efa_rdm_error_write_conn_str A a1 a2 h1 h2 buf off = some (0, b)) :
    b = buf.take off ++
        (conn_text (addr_or_na a1) (host_id_token h1) (addr_or_na a2) (host_id_token h2) ++
          NUL :: buf.drop (off +
            (conn_text (addr_or_na a1) (host_id_token h1) (addr_or_na a2)
              (host_id_token h2)).length + 1)) ∧
      cstr b off =
        conn_text (addr_or_na a1) (host_id_token h1) (addr_or_na a2) (host_id_token h2) := by
  obtain ⟨hb, hfit, hst⟩ := write_conn_str_cases A a1 a2 h1 h2 buf off 0 b _ rfl h
  have hnn := conn_text_nonul (addr_or_na a1) (host_id_token h1) (addr_or_na a2)
    (host_id_token h2) (addr_or_na_nonul a1) (host_id_token_nonul h1) (addr_or_na_nonul a2)
    (host_id_token_nonul h2)
  generalize conn_text (addr_or_na a1) (host_id_token h1) (addr_or_na a2) (host_id_token h2)
    = text at hb hfit hst hnn ⊢
  rcases hst with ⟨_, hlt, _⟩ | ⟨hneg, _⟩
  · have hmin : min (CONN_INFO_MAX_LENGTH A - 1) text.length = text.length := by omega
    have htake : text.take (CONN_INFO_MAX_LENGTH A - 1) = text :=
      List.take_of_length_le (by omega)
    rw [hmin, htake] at hb
    refine ⟨hb, ?_⟩
    rw [hb]
    exact cstr_at _ _ _ off (by simp; omega) hnn
  · omega

/-- C4.  Whenever `efa_rdm_error_write_conn_str` returns `0`, the buffer holds, from the
place written to, exactly the template
`Local: A1 Local host id: T1<TAB>Peer: A2 Peer host id: T2` and then a NUL, where `A1`, `A2`
are the address texts (`N/A` for a `NULL` pointer) and `T1`, `T2` are the tokens the encoder
`efa_rdm_error_write_host_id_str` produces for the two host ids (`N/A` when it fails); the text
is complete (it is the whole C string found there), and the bytes before and after it are
untouched. -/
theorem write_conn_str_success (A : Nat) (a1 a2 : Option CStr) (h1 h2 : Nat) (buf : Mem)
    (off : Nat) (b : Mem)
    (h : efa_rdm_error_write_conn_str A a1 a2 h1 h2 buf off = some (0, b)) :
    b = buf.take off ++
        (conn_text (addr_or_na a1) (host_id_token h1) (addr_or_na a2) (host_id_token h2) ++
          NUL :: buf.drop (off +
            (conn_text (addr_or_na a1) (host_id_token h1) (addr_or_na a2)
              (host_id_token h2)).length + 1)) ∧
      cstr b off =
        conn_text (addr_or_na a1) (host_id_token h1) (addr_or_na a2) (host_id_token h2) :=
  write_conn_str_ok A a1 a2 h1 h2 buf off b h

/-- Witness of C4: a formatting call that returns `0`, with a `NULL` peer address and a peer
host id of zero, at offset `3` of a buffer of `x` bytes. -/
theorem write_conn_str_success_witness :
    efa_rdm_error_write_conn_str 96 (some ex_local) none 1 0 (List.replicate 90 'x') 3 =
        some (0, "xxxLocal: fi_addr_0 Local host id: i-00000000000000001\tPeer: N/A Peer host id: N/A\x00xxxxxxx".toList) ∧
      "xxxLocal: fi_addr_0 Local host id: i-00000000000000001\tPeer: N/A Peer host id: N/A\x00xxxxxxx".toList =
        (List.replicate 90 'x').take 3 ++
          (conn_text (addr_or_na (some ex_local)) (host_id_token 1) (addr_or_na none)
              (host_id_token 0) ++
            NUL :: (List.replicate 90 'x').drop (3 +
              (conn_text (addr_or_na (some ex_local)) (host_id_token 1) (addr_or_na none)
                (host_id_token 0)).length + 1)) ∧
      cstr "xxxLocal: fi_addr_0 Local host id: i-00000000000000001\tPeer: N/A Peer host id: N/A\x00xxxxxxx".toList 3 =
        conn_text (addr_or_na (some ex_local)) (host_id_token 1) (addr_or_na none)
          (host_id_token 0) :=
  ⟨by decide, write_conn_str_success 96 (some ex_local) none 1 0 (List.replicate 90 'x') 3 _
    (by decide)⟩

/-! ## The capacity bound -/

theorem addr_or_na_length_le (A : Nat) (a : Option CStr)
    (h : ∀ s, a = some s → s.chars.length ≤ A) : (addr_or_na a).length ≤ A + 3 := by
  cases a with
  | none => simp [addr_or_na, NA_STR]
  | some s => simpa [addr_or_na] using Nat.le_add_right_of_le (h s rfl)

/-- C5.  For valid inputs of the formatter (each address absent or of length at most
`OFI_ADDRSTRLEN`, each host id any value, zero included) the formatted annotation is strictly
shorter than `CONN_INFO_MAX_LENGTH = sizeof(CONN_INFO_FORMAT) + 2 * HOST_ID_STR_LENGTH +
2 * OFI_ADDRSTRLEN`, and the formatter, given a buffer with that capacity, returns `0`. -/
theorem write_conn_str_valid (A : Nat) (a1 a2 : Option CStr) (h1 h2 : Nat) (buf : Mem) (off : Nat)
    (hA : CONN_INFO_MAX_LENGTH A ≤ INT_MAX)
    (hroom : off + CONN_INFO_MAX_LENGTH A ≤ buf.length)
    (hl1 : ∀ s, a1 = some s → s.chars.length ≤ A)
    (hl2 : ∀ s, a2 = some s → s.chars.length ≤ A) :
    (conn_text (addr_or_na a1) (host_id_token h1) (addr_or_na a2) (host_id_token h2)).length
        < sizeof_literal CONN_INFO_FORMAT + 2 * HOST_ID_STR_LENGTH + 2 * A ∧
      CONN_INFO_MAX_LENGTH A = sizeof_literal CONN_INFO_FORMAT + 2 * HOST_ID_STR_LENGTH + 2 * A ∧
      ∃ b, efa_rdm_error_write_conn_str A a1 a2 h1 h2 buf off = some (0, b) := by
  have hM := CONN_INFO_MAX_LENGTH_eq A
  have hdef : CONN_INFO_MAX_LENGTH A
      = sizeof_literal CONN_INFO_FORMAT + 2 * HOST_ID_STR_LENGTH + 2 * A := by
    simp [CONN_INFO_MAX_LENGTH]; omega
  have hlen : (conn_text (addr_or_na a1) (host_id_token h1) (addr_or_na a2)
      (host_id_token h2)).length < CONN_INFO_MAX_LENGTH A := by
    have e1 := addr_or_na_length_le A a1 hl1
    have e2 := addr_or_na_length_le A a2 hl2
    have t1 := host_id_token_length_le h1
    have t2 := host_id_token_length_le h2
    rw [conn_text_length, hM]
    omega
  refine ⟨hdef ▸ hlen, hdef, ?_⟩
  rw [write_conn_str_spec A a1 a2 h1 h2 buf off hA hroom]
  have : ¬ CONN_INFO_MAX_LENGTH A ≤ (conn_text (addr_or_na a1) (host_id_token h1)
      (addr_or_na a2) (host_id_token h2)).length := by omega
  simp [this]

/-- Witness of C5: both addresses as long as `OFI_ADDRSTRLEN` allows and both host ids with
all sixteen hexadecimal digits in use, the longest valid annotation. -/
theorem write_conn_str_valid_witness :
    (CONN_INFO_MAX_LENGTH 96 ≤ INT_MAX ∧
      0 + CONN_INFO_MAX_LENGTH 96 ≤ (List.replicate 284 'x').length ∧
      (∀ s, some ex_full = some s → s.chars.length ≤ 96)) ∧
    ((conn_text (addr_or_na (some ex_full)) (host_id_token 0xffffffffffffffff)
          (addr_or_na (some ex_full)) (host_id_token 0xfedcba9876543210)).length
        < sizeof_literal CONN_INFO_FORMAT + 2 * HOST_ID_STR_LENGTH + 2 * 96 ∧
      CONN_INFO_MAX_LENGTH 96 = sizeof_literal CONN_INFO_FORMAT + 2 * HOST_ID_STR_LENGTH + 2 * 96 ∧
      ∃ b, efa_rdm_error_write_conn_str 96 (some ex_full) (some ex_full) 0xffffffffffffffff
        0xfedcba9876543210 (List.replicate 284 'x') 0 = some (0, b)) :=
  ⟨⟨by decide, by rw [List.length_replicate]; decide, fun s hs => by cases hs; exact (List.length_replicate 96 'a').le⟩,
    write_conn_str_valid 96 (some ex_full) (some ex_full) 0xffffffffffffffff 0xfedcba9876543210
      (List.replicate 284 'x') 0 (by decide) (by rw [List.length_replicate]; decide)
      (fun s hs => by cases hs; exact (List.length_replicate 96 'a').le) (fun s hs => by cases hs; exact (List.length_replicate 96 'a').le)⟩

/-! ## The host-id encoder -/

/-- C3.  For every 64-bit `host_id` other than zero, `efa_rdm_error_write_host_id_str`
returns `0` and leaves in `buf` the two characters `i-`, then seventeen lowercase
hexadecimal digits whose value is `host_id` (so the digits of `host_id`, padded with zeros on
the left), then a NUL: a NUL-terminated token of exactly `HOST_ID_STR_LENGTH = 19`
characters.  The bytes of `buf` after the terminator are untouched. -/
theorem write_host_id_str_nonzero (host_id : Nat) (buf : Mem) (h0 : host_id ≠ 0)
    (h64 : host_id < 2 ^ 64) (hbuf : HOST_ID_STR_LENGTH + 1 ≤ buf.length) :
    ∃ digits : List Char,
      efa_rdm_error_write_host_id_str host_id buf =
          some (0, ('i' :: '-' :: digits) ++ NUL :: buf.drop (HOST_ID_STR_LENGTH + 1)) ∧
        cstr (('i' :: '-' :: digits) ++ NUL :: buf.drop (HOST_ID_STR_LENGTH + 1)) 0 =
          'i' :: '-' :: digits ∧
        ('i' :: '-' :: digits).length = HOST_ID_STR_LENGTH ∧
        digits.length = 17 ∧
        (∀ c ∈ digits, c ∈ hexDigits) ∧
        hexVal digits = host_id ∧
        digits = fmt_017lx host_id := by
  have hlen := fmt_host_id_length host_id h64
  have hnn := fmt_host_id_nonul host_id
  have h17 := fmt_017lx_length host_id h64
  refine ⟨fmt_017lx host_id, ?_, ?_, ?_, h17, fmt_017lx_mem host_id, hexVal_fmt_017lx host_id, rfl⟩
  · rw [write_host_id_str_eq host_id buf h0 hbuf, if_pos hlen,
      List.take_of_length_le (by omega)]
    rfl
  · exact cstr_terminated _ _ hnn
  · simp [h17, HOST_ID_STR_LENGTH]

/-- Witness of C3: the host id `0x123` of the specification is written as
`i-00000000000000123`. -/
theorem write_host_id_str_nonzero_witness :
    (0x123 ≠ 0 ∧ 0x123 < 2 ^ 64 ∧
      HOST_ID_STR_LENGTH + 1 ≤ (List.replicate 20 NUL).length) ∧
    efa_rdm_error_write_host_id_str 0x123 (List.replicate 20 NUL) =
      some (0, "i-00000000000000123\x00".toList) ∧
    ∃ digits : List Char,
      efa_rdm_error_write_host_id_str 0x123 (List.replicate 20 NUL) =
          some (0, ('i' :: '-' :: digits) ++
            NUL :: (List.replicate 20 NUL).drop (HOST_ID_STR_LENGTH + 1)) ∧
        cstr (('i' :: '-' :: digits) ++
            NUL :: (List.replicate 20 NUL).drop (HOST_ID_STR_LENGTH + 1)) 0 =
          'i' :: '-' :: digits ∧
        ('i' :: '-' :: digits).length = HOST_ID_STR_LENGTH ∧
        digits.length = 17 ∧
        (∀ c ∈ digits, c ∈ hexDigits) ∧
        hexVal digits = 0x123 ∧
        digits = fmt_017lx 0x123 :=
  ⟨⟨by decide, by decide, by decide⟩, by decide,
    write_host_id_str_nonzero 0x123 (List.replicate 20 NUL) (by decide) (by decide) (by decide)⟩

/-! ## Success and failure of the formatter -/

/-- C10.  For address texts of any length, given a buffer with room for
`CONN_INFO_MAX_LENGTH` bytes, `efa_rdm_error_write_conn_str` returns `-1` if and only if
the complete annotation has `CONN_INFO_MAX_LENGTH` characters or more; on every other input
it returns `0`, and the buffer then holds the complete annotation, NUL-terminated and
strictly shorter than `CONN_INFO_MAX_LENGTH`. -/
theorem write_conn_str_status (A : Nat) (a1 a2 : Option CStr) (h1 h2 : Nat) (buf : Mem)
    (off : Nat) (hA : CONN_INFO_MAX_LENGTH A ≤ INT_MAX)
    (hroom : off + CONN_INFO_MAX_LENGTH A ≤ buf.length) :
    ∃ (r : Int) (b : Mem),
      efa_rdm_error_write_conn_str A a1 a2 h1 h2 buf off = some (r, b) ∧
        (r = -1 ↔ CONN_INFO_MAX_LENGTH A ≤
          (conn_text (addr_or_na a1) (host_id_token h1) (addr_or_na a2)
            (host_id_token h2)).length) ∧
        (r ≠ -1 →
          r = 0 ∧
          cstr b off =
            conn_text (addr_or_na a1) (host_id_token h1) (addr_or_na a2) (host_id_token h2) ∧
          (cstr b off).length < CONN_INFO_MAX_LENGTH A ∧
          ∃ rest, b.drop off = cstr b off ++ NUL :: rest) := by
  have hsp := write_conn_str_spec A a1 a2 h1 h2 buf off hA hroom
  by_cases hm : CONN_INFO_MAX_LENGTH A ≤ (conn_text (addr_or_na a1) (host_id_token h1)
      (addr_or_na a2) (host_id_token h2)).length
  · rw [if_pos hm] at hsp
    exact ⟨_, _, hsp, by simp [hm], fun h => absurd rfl h⟩
  · rw [if_neg hm] at hsp
    generalize List.take off buf ++
      ((conn_text (addr_or_na a1) (host_id_token h1) (addr_or_na a2)
          (host_id_token h2)).take (CONN_INFO_MAX_LENGTH A - 1) ++ [NUL]) ++
      buf.drop (off + (min (CONN_INFO_MAX_LENGTH A - 1)
        (conn_text (addr_or_na a1) (host_id_token h1) (addr_or_na a2)
          (host_id_token h2)).length + 1)) = b at hsp
    refine ⟨_, _, hsp, by simp [hm], fun _ => ?_⟩
    obtain ⟨hb, hc⟩ := write_conn_str_ok A a1 a2 h1 h2 buf off _ hsp
    refine ⟨rfl, hc, by rw [hc]; omega, ?_⟩
    rw [hc]
    refine ⟨buf.drop (off + (conn_text (addr_or_na a1) (host_id_token h1) (addr_or_na a2)
      (host_id_token h2)).length + 1), ?_⟩
    conv_lhs => rw [hb]
    exact List.drop_left' (by simp; omega)

/-- Witness of C10: two address texts of three hundred characters make the formatter
return `-1`. -/
theorem write_conn_str_status_witness :
    (CONN_INFO_MAX_LENGTH 96 ≤ INT_MAX ∧
      0 + CONN_INFO_MAX_LENGTH 96 ≤ (List.replicate 284 'x').length) ∧
    ∃ (r : Int) (b : Mem),
      efa_rdm_error_write_conn_str 96 (some ex_long) (some ex_long) 1 0
          (List.replicate 284 'x') 0 = some (r, b) ∧
        (r = -1 ↔ CONN_INFO_MAX_LENGTH 96 ≤
          (conn_text (addr_or_na (some ex_long)) (host_id_token 1) (addr_or_na (some ex_long))
            (host_id_token 0)).length) ∧
        (r ≠ -1 →
          r = 0 ∧
          cstr b 0 =
            conn_text (addr_or_na (some ex_long)) (host_id_token 1) (addr_or_na (some ex_long))
              (host_id_token 0) ∧
          (cstr b 0).length < CONN_INFO_MAX_LENGTH 96 ∧
          ∃ rest, b.drop 0 = cstr b 0 ++ NUL :: rest) :=
  ⟨⟨by decide, by rw [List.length_replicate]; decide⟩,
    write_conn_str_status 96 (some ex_long) (some ex_long) 1 0 (List.replicate 284 'x') 0
      (by decide) (by rw [List.length_replicate]; decide)⟩

/-! ## A host id of zero -/

theorem conn_text_local_na (a c d : List Char) :
    "Local host id: N/A".toList <:+: conn_text a NA_STR c d :=
  ⟨"Local: ".toList ++ a ++ [' '], "\tPeer: ".toList ++ c ++ " Peer host id: ".toList ++ d, by
    simp [conn_text, NA_STR]⟩

theorem conn_text_peer_na (a b c : List Char) :
    "Peer host id: N/A".toList <:+ conn_text a b c NA_STR :=
  ⟨"Local: ".toList ++ a ++ " Local host id: ".toList ++ b ++ "\tPeer: ".toList ++ c ++ [' '], by
    simp [conn_text, NA_STR]⟩

/-- Address texts longer than `OFI_ADDRSTRLEN`, which the scratch arrays of the builder cannot
hold: with two texts of three hundred characters and both host ids zero, the formatter
returns `-1` and the bytes it leaves in the buffer stop inside the local address. -/
theorem conn_str_cut_before_token :
    efa_rdm_error_write_conn_str 96 (some ex_long) (some ex_long) 0 0
        (List.replicate 284 'x') 0 =
      some (-1, "Local: ".toList ++ List.replicate 276 'a' ++ [NUL]) ∧
    cstr ("Local: ".toList ++ List.replicate 276 'a' ++ [NUL]) 0 =
      "Local: ".toList ++ List.replicate 276 'a' ∧
    ¬ ("Local host id: N/A".toList <:+: "Local: ".toList ++ List.replicate 276 'a') ∧
    ¬ ("Peer host id: N/A".toList <:+ "Local: ".toList ++ List.replicate 276 'a') := by
  refine ⟨?_, ?_, ?_, ?_⟩
  · set_option maxRecDepth 100000 in decide
  · set_option maxRecDepth 100000 in decide
  · set_option maxRecDepth 100000 in decide
  · set_option maxRecDepth 100000 in decide

/-- Whenever the formatter returns `0`, the text it leaves in the buffer is the complete
annotation, with `N/A` for the token of a host id of zero. -/
theorem conn_str_na_of_success (A : Nat) (a1 a2 : Option CStr) (h1 h2 : Nat) (buf : Mem)
    (off : Nat) (b : Mem)
    (hret : efa_rdm_error_write_conn_str A a1 a2 h1 h2 buf off = some (0, b)) :
    (∀ scratch : Mem, efa_rdm_error_write_host_id_str 0 scratch = some (-1, scratch)) ∧
      (h1 = 0 → "Local host id: N/A".toList <:+:
        conn_text (addr_or_na a1) (host_id_token h1) (addr_or_na a2) (host_id_token h2)) ∧
      (h2 = 0 → "Peer host id: N/A".toList <:+
        conn_text (addr_or_na a1) (host_id_token h1) (addr_or_na a2) (host_id_token h2)) ∧
      (h1 = 0 → "Local host id: N/A".toList <:+: cstr b off) ∧
      (h2 = 0 → "Peer host id: N/A".toList <:+ cstr b off) := by
  obtain ⟨_, hc⟩ := write_conn_str_ok A a1 a2 h1 h2 buf off b hret
  rw [hc]
  have hl : h1 = 0 → "Local host id: N/A".toList <:+:
      conn_text (addr_or_na a1) (host_id_token h1) (addr_or_na a2) (host_id_token h2) := by
    intro h
    subst h
    rw [host_id_token_zero]
    exact conn_text_local_na _ _ _
  have hp : h2 = 0 → "Peer host id: N/A".toList <:+
      conn_text (addr_or_na a1) (host_id_token h1) (addr_or_na a2) (host_id_token h2) := by
    intro h
    subst h
    rw [host_id_token_zero]
    exact conn_text_peer_na _ _ _
  exact ⟨write_host_id_str_zero, hl, hp, hl, hp⟩

/-! ## The builder: outcomes -/

theorem data_alloc_wrap (A : Nat) (ep : rxr_ep) (peer : Option efa_rdm_peer)
    (base_msg ep_addr_str peer_addr_str : CStr) (err : Int) (junk : Nat → Char) (h : Heap)
    (ptr : Option Nat) (hA : CONN_INFO_MAX_LENGTH A ≤ INT_MAX)
    (hwrap : 2 ^ 64 ≤ base_msg.chars.length + CONN_INFO_MAX_LENGTH A + 2) :
    efa_rdm_error_data_alloc A ep peer base_msg ep_addr_str peer_addr_str err (some junk) h ptr
      = none := by
  have hlt : (base_msg.chars.length + CONN_INFO_MAX_LENGTH A + 2) % 2 ^ 64
      < base_msg.chars.length + 1 := by
    have hI : INT_MAX = 2147483647 := by decide
    omega
  have hcp : strcpy ((List.range ((base_msg.chars.length + CONN_INFO_MAX_LENGTH A + 2) % 2 ^ 64)).map
      junk) base_msg.chars = none := by
    simp only [strcpy, poke]
    rw [if_neg]
    simp
    omega
  unfold efa_rdm_error_data_alloc
  simp only [malloc, Heap.load, List.lookup, beq_self_eq_true, Option.bind_eq_bind,
    Option.some_bind, hcp, Option.none_bind]

/-- Every successful call: there was memory, the size did not wrap and the annotation fits. -/
theorem data_alloc_success (A : Nat) (ep : rxr_ep) (peer : Option efa_rdm_peer)
    (base_msg ep_addr_str peer_addr_str : CStr) (err : Int) (fill : Option (Nat → Char))
    (h : Heap) (ptr : Option Nat) (r : Outcome) (hA : CONN_INFO_MAX_LENGTH A ≤ INT_MAX)
    (hr : efa_rdm_error_data_alloc A ep peer base_msg ep_addr_str peer_addr_str err fill h ptr
      = some r)
    (hok : r.ret ≠ 0) (text : List Char)
    (htext : text = conn_text ep_addr_str.chars (host_id_token ep.host_id) peer_addr_str.chars
      (host_id_token (peer_host_id peer))) :
    ∃ junk, fill = some junk ∧ text.length < CONN_INFO_MAX_LENGTH A ∧
      base_msg.chars.length + CONN_INFO_MAX_LENGTH A + 2 < 2 ^ 64 ∧
      r = { ret := base_msg.chars.length + CONN_INFO_MAX_LENGTH A + 2
            ptr := some h.next
            heap :=
              { next := h.next + 1
                live := (h.next,
                  base_msg.chars ++ ' ' :: (text ++ NUL ::
                    ((List.range (base_msg.chars.length + CONN_INFO_MAX_LENGTH A + 2)).map
                      junk).drop (base_msg.chars.length + text.length + 2))) :: h.live } } := by
  cases fill with
  | none =>
    rw [data_alloc_nomem] at hr
    cases hr
    exact absurd rfl hok
  | some junk =>
    by_cases hB : base_msg.chars.length + CONN_INFO_MAX_LENGTH A + 2 < 2 ^ 64
    · rw [data_alloc_spec A ep peer base_msg ep_addr_str peer_addr_str err junk h ptr hA hB text
        htext] at hr
      by_cases hfail : CONN_INFO_MAX_LENGTH A ≤ text.length
      · simp only [if_pos hfail, Option.some.injEq] at hr
        rw [← hr] at hok
        exact absurd rfl hok
      · simp only [if_neg hfail, Option.some.injEq] at hr
        have hmin : min (CONN_INFO_MAX_LENGTH A - 1) text.length = text.length := by omega
        have htake : text.take (CONN_INFO_MAX_LENGTH A - 1) = text :=
          List.take_of_length_le (by omega)
        rw [hmin, htake] at hr
        exact ⟨junk, rfl, by omega, hB, hr.symm⟩
    · rw [data_alloc_wrap A ep peer base_msg ep_addr_str peer_addr_str err junk h ptr hA
        (by omega)] at hr
      cases hr

/-- C1.  Whenever `efa_rdm_error_data_alloc` succeeds (returns a length other than `0`),
`*ptr` is a live block that holds exactly the base text, one space, the annotation
`Local: <local addr> Local host id: <local token><TAB>Peer: <peer addr> Peer host id:
<peer token>` and a NUL terminator; read as a C string the block is the base text, the space
and the annotation. -/
theorem data_alloc_content (A : Nat) (ep : rxr_ep) (peer : Option efa_rdm_peer)
    (base_msg ep_addr_str peer_addr_str : CStr) (err : Int) (fill : Option (Nat → Char))
    (h : Heap) (ptr : Option Nat) (r : Outcome) (hA : CONN_INFO_MAX_LENGTH A ≤ INT_MAX)
    (hr : efa_rdm_error_data_alloc A ep peer base_msg ep_addr_str peer_addr_str err fill h ptr
      = some r)
    (hok : r.ret ≠ 0) :
    ∃ (p : Nat) (m rest : Mem),
      r.ptr = some p ∧ r.heap.load p = some m ∧
        m = base_msg.chars ++ ' ' ::
          (conn_text ep_addr_str.chars (host_id_token ep.host_id) peer_addr_str.chars
            (host_id_token (peer_host_id peer)) ++ NUL :: rest) ∧
        cstr m 0 = base_msg.chars ++ ' ' ::
          conn_text ep_addr_str.chars (host_id_token ep.host_id) peer_addr_str.chars
            (host_id_token (peer_host_id peer)) := by
  obtain ⟨junk, _, _, _, hreq⟩ := data_alloc_success A ep peer base_msg ep_addr_str
    peer_addr_str err fill h ptr r hA hr hok _ rfl
  have hnn : NUL ∉ base_msg.chars ++ ' ' ::
      conn_text ep_addr_str.chars (host_id_token ep.host_id) peer_addr_str.chars
        (host_id_token (peer_host_id peer)) := by
    have h1 := conn_text_nonul ep_addr_str.chars (host_id_token ep.host_id) peer_addr_str.chars
      (host_id_token (peer_host_id peer)) ep_addr_str.nonul (host_id_token_nonul _)
      peer_addr_str.nonul (host_id_token_nonul _)
    simp only [List.mem_append, List.mem_cons, not_or]
    exact ⟨base_msg.nonul, by decide, h1⟩
  subst hreq
  refine ⟨h.next, _, ((List.range (base_msg.chars.length + CONN_INFO_MAX_LENGTH A + 2)).map
    junk).drop (base_msg.chars.length + (conn_text ep_addr_str.chars
      (host_id_token ep.host_id) peer_addr_str.chars
      (host_id_token (peer_host_id peer))).length + 2), rfl, ?_, rfl, ?_⟩
  · simp [Heap.load, List.lookup]
  · generalize ((List.range (base_msg.chars.length + CONN_INFO_MAX_LENGTH A + 2)).map
      junk).drop (base_msg.chars.length + (conn_text ep_addr_str.chars
        (host_id_token ep.host_id) peer_addr_str.chars
        (host_id_token (peer_host_id peer))).length + 2) = rest
    have e : ∀ t : List Char, base_msg.chars ++ ' ' :: (t ++ NUL :: rest)
        = (base_msg.chars ++ ' ' :: t) ++ NUL :: rest := by
      intro t; simp
    rw [e]
    exact cstr_terminated _ _ hnn

/-- Witness of C1: the worked example of the specification.  The call succeeds and the
block handed back reads `ex_output`. -/
theorem data_alloc_content_witness :
    (CONN_INFO_MAX_LENGTH 96 ≤ INT_MAX ∧
      efa_rdm_error_data_alloc 96 ex_ep none ex_base ex_local ex_peer 0 (some ex_junk) ex_heap none
        = some ex_outcome ∧
      ex_outcome.ret ≠ 0) ∧
    ex_base.chars ++ ' ' :: conn_text ex_local.chars (host_id_token ex_ep.host_id) ex_peer.chars
        (host_id_token (peer_host_id none)) = ex_output ∧
    ∃ (p : Nat) (m rest : Mem),
      ex_outcome.ptr = some p ∧ ex_outcome.heap.load p = some m ∧
        m = ex_base.chars ++ ' ' ::
          (conn_text ex_local.chars (host_id_token ex_ep.host_id) ex_peer.chars
            (host_id_token (peer_host_id none)) ++ NUL :: rest) ∧
        cstr m 0 = ex_base.chars ++ ' ' ::
          conn_text ex_local.chars (host_id_token ex_ep.host_id) ex_peer.chars
            (host_id_token (peer_host_id none)) :=
  ⟨⟨by decide, by set_option maxRecDepth 100000 in decide, by decide⟩, by decide,
    data_alloc_content 96 ex_ep none ex_base ex_local ex_peer 0 (some ex_junk) ex_heap none
      ex_outcome (by decide) (by set_option maxRecDepth 100000 in decide) (by decide)⟩

/-- Counterexample to C2 as stated: in the worked example the call returns `318`, while the
string it produced has `118` characters and so occupies `119` bytes. -/
theorem data_alloc_returns_more_than_strlen :
    efa_rdm_error_data_alloc 96 ex_ep none ex_base ex_local ex_peer 0 (some ex_junk) ex_heap none
        = some ex_outcome ∧
      ex_outcome.ptr = some 0 ∧
      ex_outcome.heap.load 0 = some (ex_output ++ NUL :: List.replicate 199 'x') ∧
      strlen (ex_output ++ NUL :: List.replicate 199 'x') 0 = some 118 ∧
      ex_outcome.ret = 318 ∧
      ex_outcome.ret ≠ 118 + 1 := by
  refine ⟨?_, ?_, ?_, ?_, ?_, ?_⟩
  · set_option maxRecDepth 100000 in decide
  · decide
  · set_option maxRecDepth 100000 in decide
  · set_option maxRecDepth 100000 in decide
  · decide
  · decide

/-- C2, amended.  Whenever `efa_rdm_error_data_alloc` succeeds, the length it returns is the
size of the block it allocated, `strlen(base_msg) + CONN_INFO_MAX_LENGTH + 2`, which is
strictly greater than the occupied size `strlen(output) + 1` of the NUL-terminated string in
the block. -/
theorem data_alloc_returns_capacity (A : Nat) (ep : rxr_ep) (peer : Option efa_rdm_peer)
    (base_msg ep_addr_str peer_addr_str : CStr) (err : Int) (fill : Option (Nat → Char))
    (h : Heap) (ptr : Option Nat) (r : Outcome) (hA : CONN_INFO_MAX_LENGTH A ≤ INT_MAX)
    (hr : efa_rdm_error_data_alloc A ep peer base_msg ep_addr_str peer_addr_str err fill h ptr
      = some r)
    (hok : r.ret ≠ 0) :
    ∃ (p : Nat) (m : Mem) (k : Nat),
      r.ptr = some p ∧ r.heap.load p = some m ∧ strlen m 0 = some k ∧
        r.ret = base_msg.chars.length + CONN_INFO_MAX_LENGTH A + 2 ∧
        r.ret = m.length ∧
        k + 1 < r.ret := by
  obtain ⟨junk, _, hlt, hB, hreq⟩ := data_alloc_success A ep peer base_msg ep_addr_str
    peer_addr_str err fill h ptr r hA hr hok _ rfl
  have hnn : NUL ∉ base_msg.chars ++ ' ' ::
      conn_text ep_addr_str.chars (host_id_token ep.host_id) peer_addr_str.chars
        (host_id_token (peer_host_id peer)) := by
    have h1 := conn_text_nonul ep_addr_str.chars (host_id_token ep.host_id) peer_addr_str.chars
      (host_id_token (peer_host_id peer)) ep_addr_str.nonul (host_id_token_nonul _)
      peer_addr_str.nonul (host_id_token_nonul _)
    simp only [List.mem_append, List.mem_cons, not_or]
    exact ⟨base_msg.nonul, by decide, h1⟩
  subst hreq
  generalize conn_text ep_addr_str.chars (host_id_token ep.host_id) peer_addr_str.chars
    (host_id_token (peer_host_id peer)) = text at hlt hnn ⊢
  have e : ∀ rest : List Char, base_msg.chars ++ ' ' :: (text ++ NUL :: rest)
      = (base_msg.chars ++ ' ' :: text) ++ NUL :: rest := by
    intro rest; simp
  refine ⟨h.next,
    base_msg.chars ++ ' ' :: (text ++ NUL ::
      ((List.range (base_msg.chars.length + CONN_INFO_MAX_LENGTH A + 2)).map junk).drop
        (base_msg.chars.length + text.length + 2)),
    (base_msg.chars ++ ' ' :: text).length, rfl, ?_, ?_, rfl, ?_, ?_⟩
  · simp [Heap.load, List.lookup]
  · rw [e]
    exact strlen_terminated _ _ hnn
  · simp
    omega
  · simp
    omega

/-- Witness of C2: the worked example of the specification. -/
theorem data_alloc_returns_capacity_witness :
    (CONN_INFO_MAX_LENGTH 96 ≤ INT_MAX ∧
      efa_rdm_error_data_alloc 96 ex_ep none ex_base ex_local ex_peer 0 (some ex_junk) ex_heap none
        = some ex_outcome ∧
      ex_outcome.ret ≠ 0) ∧
    ∃ (p : Nat) (m : Mem) (k : Nat),
      ex_outcome.ptr = some p ∧ ex_outcome.heap.load p = some m ∧ strlen m 0 = some k ∧
        ex_outcome.ret = ex_base.chars.length + CONN_INFO_MAX_LENGTH 96 + 2 ∧
        ex_outcome.ret = m.length ∧
        k + 1 < ex_outcome.ret :=
  ⟨⟨by decide, by set_option maxRecDepth 100000 in decide, by decide⟩,
    data_alloc_returns_capacity 96 ex_ep none ex_base ex_local ex_peer 0 (some ex_junk) ex_heap none
      ex_outcome (by decide) (by set_option maxRecDepth 100000 in decide) (by decide)⟩

/-! ## The builder: memory safety -/

/-- C6.  `efa_rdm_error_data_alloc` never writes outside the block it allocated.  For
every base text, address texts of any length and all host ids, once the allocation succeeds
the call runs to its end without a write or read outside a memory object; the block has
`strlen(base_msg) + CONN_INFO_MAX_LENGTH + 2` bytes; the bytes written (base text, one
space, at most `CONN_INFO_MAX_LENGTH - 1` characters of the annotation, and the NUL) are
strictly fewer; and every byte of the block after that NUL still has its initial value. -/
theorem data_alloc_in_bounds (A : Nat) (ep : rxr_ep) (peer : Option efa_rdm_peer)
    (base_msg ep_addr_str peer_addr_str : CStr) (err : Int) (junk : Nat → Char) (h : Heap)
    (ptr : Option Nat) (hA : CONN_INFO_MAX_LENGTH A ≤ INT_MAX)
    (hB : base_msg.chars.length + CONN_INFO_MAX_LENGTH A + 2 < 2 ^ 64) :
    ∃ (r : Outcome) (m : Mem) (k : Nat),
      efa_rdm_error_data_alloc A ep peer base_msg ep_addr_str peer_addr_str err (some junk) h ptr
          = some r ∧
        r.heap.load h.next = some m ∧
        m.length = base_msg.chars.length + CONN_INFO_MAX_LENGTH A + 2 ∧
        strlen m 0 = some k ∧
        k = base_msg.chars.length + 1 + min (CONN_INFO_MAX_LENGTH A - 1)
          (conn_text ep_addr_str.chars (host_id_token ep.host_id) peer_addr_str.chars
            (host_id_token (peer_host_id peer))).length ∧
        k + 1 < m.length ∧
        ∀ i, k + 1 ≤ i → i < m.length → m[i]? = some (junk i) := by
  have hsp := data_alloc_spec A ep peer base_msg ep_addr_str peer_addr_str err junk h ptr hA hB
    _ rfl
  have hM := CONN_INFO_MAX_LENGTH_eq A
  have hnt := conn_text_nonul ep_addr_str.chars (host_id_token ep.host_id) peer_addr_str.chars
    (host_id_token (peer_host_id peer)) ep_addr_str.nonul (host_id_token_nonul _)
    peer_addr_str.nonul (host_id_token_nonul _)
  generalize conn_text ep_addr_str.chars (host_id_token ep.host_id) peer_addr_str.chars
    (host_id_token (peer_host_id peer)) = text at hsp hnt ⊢
  have hnn : NUL ∉ base_msg.chars ++ ' ' :: text.take (CONN_INFO_MAX_LENGTH A - 1) := by
    simp only [List.mem_append, List.mem_cons, not_or]
    exact ⟨base_msg.nonul, by decide, fun hc => hnt (List.mem_of_mem_take hc)⟩
  have e : ∀ rest : List Char,
      base_msg.chars ++ ' ' :: (text.take (CONN_INFO_MAX_LENGTH A - 1) ++ NUL :: rest)
        = (base_msg.chars ++ ' ' :: text.take (CONN_INFO_MAX_LENGTH A - 1)) ++ NUL :: rest := by
    intro rest; simp
  have hk : (base_msg.chars ++ ' ' :: text.take (CONN_INFO_MAX_LENGTH A - 1)).length
      = base_msg.chars.length + 1 + min (CONN_INFO_MAX_LENGTH A - 1) text.length := by
    simp
    omega
  have hlen : (base_msg.chars ++ ' ' :: (text.take (CONN_INFO_MAX_LENGTH A - 1) ++ NUL ::
      ((List.range (base_msg.chars.length + CONN_INFO_MAX_LENGTH A + 2)).map junk).drop
        (base_msg.chars.length + min (CONN_INFO_MAX_LENGTH A - 1) text.length + 2))).length
      = base_msg.chars.length + CONN_INFO_MAX_LENGTH A + 2 := by
    simp
    omega
  refine ⟨_,
    base_msg.chars ++ ' ' :: (text.take (CONN_INFO_MAX_LENGTH A - 1) ++ NUL ::
      ((List.range (base_msg.chars.length + CONN_INFO_MAX_LENGTH A + 2)).map junk).drop
        (base_msg.chars.length + min (CONN_INFO_MAX_LENGTH A - 1) text.length + 2)),
    (base_msg.chars ++ ' ' :: text.take (CONN_INFO_MAX_LENGTH A - 1)).length,
    hsp, ?_, hlen, ?_, hk, ?_, ?_⟩
  · simp [Heap.load, List.lookup]
  · rw [e]
    exact strlen_terminated _ _ hnn
  · rw [hk, hlen]
    omega
  · intro i hi hlt
    rw [hlen] at hlt
    rw [hk] at hi
    obtain ⟨j, rfl⟩ : ∃ j, i = base_msg.chars.length + 1
        + min (CONN_INFO_MAX_LENGTH A - 1) text.length + 1 + j := ⟨i - (base_msg.chars.length
          + 1 + min (CONN_INFO_MAX_LENGTH A - 1) text.length + 1), by omega⟩
    rw [e, List.getElem?_append_right (by rw [hk]; omega), hk,
      show base_msg.chars.length + 1 + min (CONN_INFO_MAX_LENGTH A - 1) text.length + 1 + j
        - (base_msg.chars.length + 1 + min (CONN_INFO_MAX_LENGTH A - 1) text.length) = j + 1
        by omega,
      List.getElem?_cons_succ, List.getElem?_drop, List.getElem?_map,
      List.getElem?_range (by omega)]
    simp only [Option.map_some']
    congr 2
    omega

/-- Witness of C6: address texts of three hundred characters, far longer than the scratch
arrays, still stay inside the block. -/
theorem data_alloc_in_bounds_witness :
    (CONN_INFO_MAX_LENGTH 96 ≤ INT_MAX ∧
      ex_base.chars.length + CONN_INFO_MAX_LENGTH 96 + 2 < 2 ^ 64) ∧
    ∃ (r : Outcome) (m : Mem) (k : Nat),
      efa_rdm_error_data_alloc 96 ex_ep none ex_base ex_long ex_long 0 (some ex_junk) ex_heap none
          = some r ∧
        r.heap.load ex_heap.next = some m ∧
        m.length = ex_base.chars.length + CONN_INFO_MAX_LENGTH 96 + 2 ∧
        strlen m 0 = some k ∧
        k = ex_base.chars.length + 1 + min (CONN_INFO_MAX_LENGTH 96 - 1)
          (conn_text ex_long.chars (host_id_token ex_ep.host_id) ex_long.chars
            (host_id_token (peer_host_id none))).length ∧
        k + 1 < m.length ∧
        ∀ i, k + 1 ≤ i → i < m.length → m[i]? = some (ex_junk i) :=
  ⟨⟨by set_option maxRecDepth 100000 in decide, by set_option maxRecDepth 100000 in decide⟩,
    data_alloc_in_bounds 96 ex_ep none ex_base ex_long ex_long 0 ex_junk ex_heap none
      (by decide) (by set_option maxRecDepth 100000 in decide)⟩

/-! ## The builder: failure -/

theorem data_alloc_conn_failure (A : Nat) (ep : rxr_ep) (peer : Option efa_rdm_peer)
    (base_msg ep_addr_str peer_addr_str : CStr) (err : Int) (junk : Nat → Char) (h : Heap)
    (ptr : Option Nat) (hA : CONN_INFO_MAX_LENGTH A ≤ INT_MAX)
    (hB : base_msg.chars.length + CONN_INFO_MAX_LENGTH A + 2 < 2 ^ 64)
    (hfail : CONN_INFO_MAX_LENGTH A ≤
      (conn_text ep_addr_str.chars (host_id_token ep.host_id) peer_addr_str.chars
        (host_id_token (peer_host_id peer))).length) :
    ∃ r, efa_rdm_error_data_alloc A ep peer base_msg ep_addr_str peer_addr_str err (some junk)
        h ptr = some r ∧
      r.ret = 0 ∧ r.ptr = ptr ∧ r.heap.allocated = h.next :: h.allocated := by
  have hsp := data_alloc_spec A ep peer base_msg ep_addr_str peer_addr_str err junk h ptr hA hB
    _ rfl
  rw [if_pos hfail, if_pos hfail] at hsp
  exact ⟨_, hsp, rfl, rfl, by simp [Heap.allocated]⟩

theorem conn_failure_iff (A : Nat) (a1 a2 : Option CStr) (h1 h2 : Nat)
    (hA : CONN_INFO_MAX_LENGTH A ≤ INT_MAX) :
    (∃ (buf : Mem) (off : Nat) (b : Mem),
        efa_rdm_error_write_conn_str A a1 a2 h1 h2 buf off = some (-1, b)) ↔
      CONN_INFO_MAX_LENGTH A ≤
        (conn_text (addr_or_na a1) (host_id_token h1) (addr_or_na a2)
          (host_id_token h2)).length := by
  constructor
  · rintro ⟨buf, off, b, hb⟩
    obtain ⟨_, _, hst⟩ := write_conn_str_cases A a1 a2 h1 h2 buf off (-1) b _ rfl hb
    rcases hst with ⟨h0, _⟩ | ⟨_, hm | hm⟩
    · omega
    · exact hm
    · omega
  · intro hm
    have hsp := write_conn_str_spec A a1 a2 h1 h2 (List.replicate (CONN_INFO_MAX_LENGTH A) NUL)
      0 hA (by simp)
    rw [if_pos hm] at hsp
    exact ⟨_, _, _, hsp⟩

/-- C7.  Whenever `efa_rdm_error_data_alloc` fails, because the allocator returns `NULL`
or because `efa_rdm_error_write_conn_str` returns `-1` after a successful allocation, it
returns `0` and `*ptr` is exactly what it was before the call; and a return of `0` happens
in these two cases only. -/
theorem data_alloc_failure (A : Nat) (ep : rxr_ep) (peer : Option efa_rdm_peer)
    (base_msg ep_addr_str peer_addr_str : CStr) (err : Int) (fill : Option (Nat → Char))
    (h : Heap) (ptr : Option Nat) (hA : CONN_INFO_MAX_LENGTH A ≤ INT_MAX)
    (hB : base_msg.chars.length + CONN_INFO_MAX_LENGTH A + 2 < 2 ^ 64) :
    ∃ r, efa_rdm_error_data_alloc A ep peer base_msg ep_addr_str peer_addr_str err fill h ptr
        = some r ∧
      ((fill = none ∨
          ∃ (buf : Mem) (off : Nat) (b : Mem),
            efa_rdm_error_write_conn_str A (some ep_addr_str) (some peer_addr_str) ep.host_id
              (peer_host_id peer) buf off = some (-1, b)) →
        r.ret = 0 ∧ r.ptr = ptr) ∧
      (r.ret = 0 →
        r.ptr = ptr ∧
        (fill = none ∨
          ∃ (buf : Mem) (off : Nat) (b : Mem),
            efa_rdm_error_write_conn_str A (some ep_addr_str) (some peer_addr_str) ep.host_id
              (peer_host_id peer) buf off = some (-1, b))) := by
  have hiff := conn_failure_iff A (some ep_addr_str) (some peer_addr_str) ep.host_id
    (peer_host_id peer) hA
  simp only [addr_or_na] at hiff
  cases fill with
  | none =>
    exact ⟨_, data_alloc_nomem A ep peer base_msg ep_addr_str peer_addr_str err h ptr,
      fun _ => ⟨rfl, rfl⟩, fun _ => ⟨rfl, Or.inl rfl⟩⟩
  | some junk =>
    have hsp := data_alloc_spec A ep peer base_msg ep_addr_str peer_addr_str err junk h ptr hA
      hB _ rfl
    by_cases hfail : CONN_INFO_MAX_LENGTH A ≤
        (conn_text ep_addr_str.chars (host_id_token ep.host_id) peer_addr_str.chars
          (host_id_token (peer_host_id peer))).length
    · rw [if_pos hfail, if_pos hfail] at hsp
      exact ⟨_, hsp, fun _ => ⟨rfl, rfl⟩, fun _ => ⟨rfl, Or.inr (hiff.mpr hfail)⟩⟩
    · rw [if_neg hfail, if_neg hfail] at hsp
      refine ⟨_, hsp, ?_, ?_⟩
      · rintro (hf | hf)
        · cases hf
        · exact absurd (hiff.mp hf) hfail
      · intro h0
        simp only at h0
        omega

/-- Witness of C7: in the worked example with address texts of three hundred characters the
allocation succeeds and the formatter fails. -/
theorem data_alloc_failure_witness :
    (CONN_INFO_MAX_LENGTH 96 ≤ INT_MAX ∧
      ex_base.chars.length + CONN_INFO_MAX_LENGTH 96 + 2 < 2 ^ 64) ∧
    ∃ r, efa_rdm_error_data_alloc 96 ex_ep none ex_base ex_long ex_long 0 (some ex_junk) ex_heap
        (some 7) = some r ∧
      ((some ex_junk = none ∨
          ∃ (buf : Mem) (off : Nat) (b : Mem),
            efa_rdm_error_write_conn_str 96 (some ex_long) (some ex_long) ex_ep.host_id
              (peer_host_id none) buf off = some (-1, b)) →
        r.ret = 0 ∧ r.ptr = some 7) ∧
      (r.ret = 0 →
        r.ptr = some 7 ∧
        (some ex_junk = none ∨
          ∃ (buf : Mem) (off : Nat) (b : Mem),
            efa_rdm_error_write_conn_str 96 (some ex_long) (some ex_long) ex_ep.host_id
              (peer_host_id none) buf off = some (-1, b))) :=
  ⟨⟨by set_option maxRecDepth 100000 in decide, by set_option maxRecDepth 100000 in decide⟩,
    data_alloc_failure 96 ex_ep none ex_base ex_long ex_long 0 (some ex_junk) ex_heap (some 7)
      (by set_option maxRecDepth 100000 in decide)
      (by set_option maxRecDepth 100000 in decide)⟩

/-- Address texts longer than the scratch arrays can hold: were the two texts three hundred
characters long in the worked example, the formatter would fail after the allocation, the
call would return `0` and leave `*ptr` alone, and the block would stay live, since the
failure path of the builder has no `free`. -/
theorem data_alloc_leak :
    ∃ r, efa_rdm_error_data_alloc 96 ex_ep none ex_base ex_long ex_long 0 (some ex_junk) ex_heap
        none = some r ∧
      r.ret = 0 ∧ r.ptr = none ∧
      ex_heap.allocated = [] ∧ r.heap.allocated = [0] := by
  obtain ⟨r, hr, h1, h2, h3⟩ := data_alloc_conn_failure 96 ex_ep none ex_base ex_long ex_long 0
    ex_junk ex_heap none (by set_option maxRecDepth 100000 in decide)
    (by set_option maxRecDepth 100000 in decide)
    (by set_option maxRecDepth 100000 in decide)
  exact ⟨r, hr, h1, h2, rfl, h3⟩

/-! ## The encoder fails on zero only -/

/-- C13.  For a 64-bit `host_id`, `efa_rdm_error_write_host_id_str` fails (returns `-1`)
if and only if `host_id` is zero.  For a non-zero value the length check cannot fire: the value
has at most sixteen hexadecimal digits, so `i-` and the zero-padded field of seventeen are
exactly `HOST_ID_STR_LENGTH = 19` characters, `snprintf` returns `19`, and nothing is cut by
the limit of twenty bytes. -/
theorem write_host_id_str_fails_iff (host_id : Nat) (buf : Mem) (h64 : host_id < 2 ^ 64)
    (hbuf : HOST_ID_STR_LENGTH + 1 ≤ buf.length) :
    ∃ (r : Int) (b : Mem),
      efa_rdm_error_write_host_id_str host_id buf = some (r, b) ∧
        (r = -1 ↔ host_id = 0) ∧
        (r ≠ -1 → r = 0) ∧
        (host_id ≠ 0 →
          (fmt_lx host_id).length ≤ 16 ∧
          (fmt_host_id host_id).length = HOST_ID_STR_LENGTH ∧
          (fmt_host_id host_id).take (HOST_ID_STR_LENGTH + 1 - 1) = fmt_host_id host_id ∧
          ∃ b1, snprintf buf 0 (HOST_ID_STR_LENGTH + 1) (fmt_host_id host_id)
            = some ((HOST_ID_STR_LENGTH : Int), b1)) := by
  by_cases h0 : host_id = 0
  · subst h0
    exact ⟨-1, buf, write_host_id_str_zero buf, by simp, fun h => absurd rfl h,
      fun h => absurd rfl h⟩
  · have hlen := fmt_host_id_length host_id h64
    have heq := write_host_id_str_eq host_id buf h0 hbuf
    rw [if_pos hlen] at heq
    refine ⟨0, _, heq, by simp [h0], fun _ => rfl, fun _ => ⟨fmt_lx_length_le host_id h64, hlen,
      List.take_of_length_le (by rw [hlen]; decide), ?_⟩⟩
    rw [snprintf_fits buf 0 (HOST_ID_STR_LENGTH + 1) _ (by simp) (by simpa using hbuf)]
    have hi : (fmt_host_id host_id).length ≤ INT_MAX := by rw [hlen]; decide
    rw [if_pos hi, hlen]
    exact ⟨_, rfl⟩

/-- Witness of C13: the largest 64-bit host id, with all sixteen digits in use. -/
theorem write_host_id_str_fails_iff_witness :
    (0xffffffffffffffff < 2 ^ 64 ∧ HOST_ID_STR_LENGTH + 1 ≤ (List.replicate 20 NUL).length) ∧
    efa_rdm_error_write_host_id_str 0xffffffffffffffff (List.replicate 20 NUL) =
      some (0, "i-0ffffffffffffffff\x00".toList) ∧
    ∃ (r : Int) (b : Mem),
      efa_rdm_error_write_host_id_str 0xffffffffffffffff (List.replicate 20 NUL) = some (r, b) ∧
        (r = -1 ↔ 0xffffffffffffffff = 0) ∧
        (r ≠ -1 → r = 0) ∧
        (0xffffffffffffffff ≠ 0 →
          (fmt_lx 0xffffffffffffffff).length ≤ 16 ∧
          (fmt_host_id 0xffffffffffffffff).length = HOST_ID_STR_LENGTH ∧
          (fmt_host_id 0xffffffffffffffff).take (HOST_ID_STR_LENGTH + 1 - 1) =
            fmt_host_id 0xffffffffffffffff ∧
          ∃ b1, snprintf (List.replicate 20 NUL) 0 (HOST_ID_STR_LENGTH + 1)
            (fmt_host_id 0xffffffffffffffff) = some ((HOST_ID_STR_LENGTH : Int), b1)) :=
  ⟨⟨by decide, by decide⟩, by decide,
    write_host_id_str_fails_iff 0xffffffffffffffff (List.replicate 20 NUL) (by decide)
      (by decide)⟩

/-! ## The token determines the host id -/

theorem fmt_host_id_inj (h1 h2 : Nat) (h : fmt_host_id h1 = fmt_host_id h2) : h1 = h2 := by
  have e : fmt_017lx h1 = fmt_017lx h2 := by
    simpa [fmt_host_id] using h
  rw [← hexVal_fmt_017lx h1, ← hexVal_fmt_017lx h2, e]

theorem fmt_host_id_ne_NA (h : Nat) : fmt_host_id h ≠ NA_STR := by
  intro e
  have := fmt_host_id_length_ge h
  rw [e] at this
  exact absurd this (by decide)

/-- C15.  The token is lossless.  For every non-zero 64-bit host id the encoder succeeds and
the C string it leaves is `i-` followed by seventeen characters that, read as a base-16
number, give the host id again; so two non-zero host ids with the same token are equal, and
the token of a non-zero host id is never the literal `N/A`, which stands for host id zero. -/
theorem host_id_token_lossless (h1 h2 : Nat) (buf1 buf2 : Mem)
    (h1pos : h1 ≠ 0) (h1lt : h1 < 2 ^ 64) (h2pos : h2 ≠ 0) (h2lt : h2 < 2 ^ 64)
    (hbuf1 : HOST_ID_STR_LENGTH + 1 ≤ buf1.length)
    (hbuf2 : HOST_ID_STR_LENGTH + 1 ≤ buf2.length) :
    ∃ (b1 b2 : Mem),
      efa_rdm_error_write_host_id_str h1 buf1 = some (0, b1) ∧
        efa_rdm_error_write_host_id_str h2 buf2 = some (0, b2) ∧
        (cstr b1 0).take 2 = ['i', '-'] ∧
        ((cstr b1 0).drop 2).length = 17 ∧
        hexVal ((cstr b1 0).drop 2) = h1 ∧
        (cstr b1 0 = cstr b2 0 → h1 = h2) ∧
        (h1 ≠ h2 → cstr b1 0 ≠ cstr b2 0) ∧
        cstr b1 0 ≠ NA_STR ∧
        host_id_token h1 = cstr b1 0 ∧
        host_id_token 0 = NA_STR := by
  have key : ∀ (h : Nat) (buf : Mem), h ≠ 0 → h < 2 ^ 64 → HOST_ID_STR_LENGTH + 1 ≤ buf.length →
      efa_rdm_error_write_host_id_str h buf
          = some (0, fmt_host_id h ++ NUL :: buf.drop 20) ∧
        cstr (fmt_host_id h ++ NUL :: buf.drop 20) 0 = fmt_host_id h := by
    intro h buf hpos hlt hbuf
    have hlen := fmt_host_id_length h hlt
    have heq := write_host_id_str_eq h buf hpos hbuf
    rw [if_pos hlen, List.take_of_length_le (by omega)] at heq
    exact ⟨heq, cstr_terminated _ _ (fmt_host_id_nonul h)⟩
  obtain ⟨e1, c1⟩ := key h1 buf1 h1pos h1lt hbuf1
  obtain ⟨e2, c2⟩ := key h2 buf2 h2pos h2lt hbuf2
  refine ⟨_, _, e1, e2, ?_, ?_, ?_, ?_, ?_, ?_, ?_, host_id_token_zero⟩
  · rw [c1]; rfl
  · rw [c1]
    simpa [fmt_host_id] using fmt_017lx_length h1 h1lt
  · rw [c1]
    simpa [fmt_host_id] using hexVal_fmt_017lx h1
  · rw [c1, c2]
    exact fmt_host_id_inj h1 h2
  · rw [c1, c2]
    exact fun hne e => hne (fmt_host_id_inj h1 h2 e)
  · rw [c1]
    exact fmt_host_id_ne_NA h1
  · rw [c1]
    exact host_id_token_of_lt h1 h1pos h1lt

/-- Witness of C15: the host ids `0x123` and `0x124`. -/
theorem host_id_token_lossless_witness :
    (0x123 ≠ 0 ∧ 0x123 < 2 ^ 64 ∧ 0x124 ≠ 0 ∧ 0x124 < 2 ^ 64 ∧
      HOST_ID_STR_LENGTH + 1 ≤ (List.replicate 20 NUL).length) ∧
    ∃ (b1 b2 : Mem),
      efa_rdm_error_write_host_id_str 0x123 (List.replicate 20 NUL) = some (0, b1) ∧
        efa_rdm_error_write_host_id_str 0x124 (List.replicate 20 NUL) = some (0, b2) ∧
        (cstr b1 0).take 2 = ['i', '-'] ∧
        ((cstr b1 0).drop 2).length = 17 ∧
        hexVal ((cstr b1 0).drop 2) = 0x123 ∧
        (cstr b1 0 = cstr b2 0 → 0x123 = 0x124) ∧
        (0x123 ≠ 0x124 → cstr b1 0 ≠ cstr b2 0) ∧
        cstr b1 0 ≠ NA_STR ∧
        host_id_token 0x123 = cstr b1 0 ∧
        host_id_token 0 = NA_STR :=
  ⟨⟨by decide, by decide, by decide, by decide, by decide⟩,
    host_id_token_lossless 0x123 0x124 (List.replicate 20 NUL) (List.replicate 20 NUL)
      (by decide) (by decide) (by decide) (by decide) (by decide) (by decide)⟩

/-! ## The builder: the peer host id -/

theorem data_alloc_cstr (A : Nat) (ep : rxr_ep) (peer : Option efa_rdm_peer)
    (base_msg ep_addr_str peer_addr_str : CStr) (err : Int) (fill : Option (Nat → Char))
    (h : Heap) (ptr : Option Nat) (r : Outcome) (hA : CONN_INFO_MAX_LENGTH A ≤ INT_MAX)
    (hr : efa_rdm_error_data_alloc A ep peer base_msg ep_addr_str peer_addr_str err fill h ptr
      = some r)
    (hok : r.ret ≠ 0) :
    ∃ m : Mem, r.ptr = some h.next ∧ r.heap.load h.next = some m ∧
      cstr m 0 = base_msg.chars ++ ' ' ::
        conn_text ep_addr_str.chars (host_id_token ep.host_id) peer_addr_str.chars
          (host_id_token (peer_host_id peer)) := by
  obtain ⟨junk, _, _, _, hreq⟩ := data_alloc_success A ep peer base_msg ep_addr_str
    peer_addr_str err fill h ptr r hA hr hok _ rfl
  have hnn : NUL ∉ base_msg.chars ++ ' ' ::
      conn_text ep_addr_str.chars (host_id_token ep.host_id) peer_addr_str.chars
        (host_id_token (peer_host_id peer)) := by
    have h1 := conn_text_nonul ep_addr_str.chars (host_id_token ep.host_id) peer_addr_str.chars
      (host_id_token (peer_host_id peer)) ep_addr_str.nonul (host_id_token_nonul _)
      peer_addr_str.nonul (host_id_token_nonul _)
    simp only [List.mem_append, List.mem_cons, not_or]
    exact ⟨base_msg.nonul, by decide, h1⟩
  subst hreq
  generalize conn_text ep_addr_str.chars (host_id_token ep.host_id) peer_addr_str.chars
    (host_id_token (peer_host_id peer)) = text at hnn ⊢
  refine ⟨base_msg.chars ++ ' ' :: (text ++ NUL ::
    ((List.range (base_msg.chars.length + CONN_INFO_MAX_LENGTH A + 2)).map junk).drop
      (base_msg.chars.length + text.length + 2)), rfl, ?_, ?_⟩
  · simp [Heap.load, List.lookup]
  · have e : ∀ rest : List Char, base_msg.chars ++ ' ' :: (text ++ NUL :: rest)
        = (base_msg.chars ++ ' ' :: text) ++ NUL :: rest := by
      intro rest; simp
    rw [e]
    exact cstr_terminated _ _ hnn

theorem output_peer_suffix (base a b c d : List Char) :
    ("Peer host id: ".toList ++ d) <:+ (base ++ ' ' :: conn_text a b c d) :=
  ⟨base ++ ' ' :: ("Local: ".toList ++ a ++ " Local host id: ".toList ++ b ++ "\tPeer: ".toList
    ++ c ++ [' ']), by simp [conn_text]⟩

/-- C12.  In `efa_rdm_error_data_alloc` the peer host id given to the formatter is the
`host_id` of the descriptor the peer lookup returns, and `0` when it returns none.  So on
every successful call the string in `*ptr` ends in `Peer host id: N/A` when no descriptor was
found, and, when a descriptor with a non-zero 64-bit `host_id` was found, in `Peer host id: `
followed by the token of that host id, which is nineteen characters long. -/
theorem data_alloc_peer_token (A : Nat) (ep : rxr_ep) (peer : Option efa_rdm_peer)
    (base_msg ep_addr_str peer_addr_str : CStr) (err : Int) (fill : Option (Nat → Char))
    (h : Heap) (ptr : Option Nat) (r : Outcome) (hA : CONN_INFO_MAX_LENGTH A ≤ INT_MAX)
    (hr : efa_rdm_error_data_alloc A ep peer base_msg ep_addr_str peer_addr_str err fill h ptr
      = some r)
    (hok : r.ret ≠ 0) :
    ∃ (p : Nat) (m : Mem),
      r.ptr = some p ∧ r.heap.load p = some m ∧
        (peer = none →
          peer_host_id peer = 0 ∧ "Peer host id: N/A".toList <:+ cstr m 0) ∧
        (∀ d : efa_rdm_peer, peer = some d →
          peer_host_id peer = d.host_id ∧
          (d.host_id ≠ 0 → d.host_id < 2 ^ 64 →
            host_id_token d.host_id = fmt_host_id d.host_id ∧
            (fmt_host_id d.host_id).length = 19 ∧
            ("Peer host id: ".toList ++ fmt_host_id d.host_id) <:+ cstr m 0)) := by
  obtain ⟨m, hp, hm, hc⟩ := data_alloc_cstr A ep peer base_msg ep_addr_str peer_addr_str err
    fill h ptr r hA hr hok
  refine ⟨h.next, m, hp, hm, ?_, ?_⟩
  · intro hnone
    subst hnone
    refine ⟨rfl, ?_⟩
    rw [hc]
    have : peer_host_id none = 0 := rfl
    rw [this, host_id_token_zero]
    exact output_peer_suffix _ _ _ _ _
  · intro d hd
    subst hd
    refine ⟨rfl, fun h0 h64 => ⟨host_id_token_of_lt _ h0 h64, fmt_host_id_length _ h64, ?_⟩⟩
    rw [hc]
    have : peer_host_id (some d) = d.host_id := rfl
    rw [this, host_id_token_of_lt _ h0 h64]
    exact output_peer_suffix _ _ _ _ _

/-- Witness of C12: the worked example with a peer descriptor whose host id is `0x123`. -/
theorem data_alloc_peer_token_witness :
    (CONN_INFO_MAX_LENGTH 96 ≤ INT_MAX ∧
      efa_rdm_error_data_alloc 96 ex_ep (some ex_peer_desc) ex_base ex_local ex_peer 0
        (some ex_junk) ex_heap none = some ex_outcome_peer ∧
      ex_outcome_peer.ret ≠ 0) ∧
    "Peer host id: ".toList ++ fmt_host_id ex_peer_desc.host_id =
      "Peer host id: i-00000000000000123".toList ∧
    ∃ (p : Nat) (m : Mem),
      ex_outcome_peer.ptr = some p ∧ ex_outcome_peer.heap.load p = some m ∧
        (some ex_peer_desc = none →
          peer_host_id (some ex_peer_desc) = 0 ∧ "Peer host id: N/A".toList <:+ cstr m 0) ∧
        (∀ d : efa_rdm_peer, some ex_peer_desc = some d →
          peer_host_id (some ex_peer_desc) = d.host_id ∧
          (d.host_id ≠ 0 → d.host_id < 2 ^ 64 →
            host_id_token d.host_id = fmt_host_id d.host_id ∧
            (fmt_host_id d.host_id).length = 19 ∧
            ("Peer host id: ".toList ++ fmt_host_id d.host_id) <:+ cstr m 0)) :=
  ⟨⟨by set_option maxRecDepth 100000 in decide, by set_option maxRecDepth 100000 in decide,
      by decide⟩,
    by decide,
    data_alloc_peer_token 96 ex_ep (some ex_peer_desc) ex_base ex_local ex_peer 0
      (some ex_junk) ex_heap none ex_outcome_peer (by set_option maxRecDepth 100000 in decide)
      (by set_option maxRecDepth 100000 in decide) (by decide)⟩

/-! ## The builder: failure means no memory -/

/-- C14.  When both address texts are shorter than `OFI_ADDRSTRLEN`, the formatter cannot
fail on the arguments `efa_rdm_error_data_alloc` gives it, whatever the base text and the
host ids; the call returns `0` if and only if the allocation fails, and every successful
return value is strictly positive. -/
theorem data_alloc_fails_iff_nomem (A : Nat) (ep : rxr_ep) (peer : Option efa_rdm_peer)
    (base_msg ep_addr_str peer_addr_str : CStr) (err : Int) (fill : Option (Nat → Char))
    (h : Heap) (ptr : Option Nat) (hA : CONN_INFO_MAX_LENGTH A ≤ INT_MAX)
    (hB : base_msg.chars.length + CONN_INFO_MAX_LENGTH A + 2 < 2 ^ 64)
    (hl1 : ep_addr_str.chars.length < A) (hl2 : peer_addr_str.chars.length < A) :
    ∃ r, efa_rdm_error_data_alloc A ep peer base_msg ep_addr_str peer_addr_str err fill h ptr
        = some r ∧
      (r.ret = 0 ↔ fill = none) ∧
      (fill ≠ none →
        0 < r.ret ∧ r.ret = base_msg.chars.length + CONN_INFO_MAX_LENGTH A + 2 ∧
        r.ptr = some h.next) ∧
      (¬ ∃ (buf : Mem) (off : Nat) (b : Mem),
        efa_rdm_error_write_conn_str A (some ep_addr_str) (some peer_addr_str) ep.host_id
          (peer_host_id peer) buf off = some (-1, b)) ∧
      (∀ (buf : Mem) (off : Nat), off + CONN_INFO_MAX_LENGTH A ≤ buf.length →
        ∃ b, efa_rdm_error_write_conn_str A (some ep_addr_str) (some peer_addr_str) ep.host_id
          (peer_host_id peer) buf off = some (0, b)) := by
  have hM := CONN_INFO_MAX_LENGTH_eq A
  have hlen : ¬ CONN_INFO_MAX_LENGTH A ≤
      (conn_text ep_addr_str.chars (host_id_token ep.host_id) peer_addr_str.chars
        (host_id_token (peer_host_id peer))).length := by
    have t1 := host_id_token_length_le ep.host_id
    have t2 := host_id_token_length_le (peer_host_id peer)
    rw [conn_text_length, hM]
    omega
  have hiff := conn_failure_iff A (some ep_addr_str) (some peer_addr_str) ep.host_id
    (peer_host_id peer) hA
  simp only [addr_or_na] at hiff
  have hnofail : ¬ ∃ (buf : Mem) (off : Nat) (b : Mem),
      efa_rdm_error_write_conn_str A (some ep_addr_str) (some peer_addr_str) ep.host_id
        (peer_host_id peer) buf off = some (-1, b) := fun hf => hlen (hiff.mp hf)
  have hzero : ∀ (buf : Mem) (off : Nat), off + CONN_INFO_MAX_LENGTH A ≤ buf.length →
      ∃ b, efa_rdm_error_write_conn_str A (some ep_addr_str) (some peer_addr_str) ep.host_id
        (peer_host_id peer) buf off = some (0, b) := by
    intro buf off hroom
    have hsp := write_conn_str_spec A (some ep_addr_str) (some peer_addr_str) ep.host_id
      (peer_host_id peer) buf off hA hroom
    simp only [addr_or_na] at hsp
    rw [if_neg hlen] at hsp
    exact ⟨_, hsp⟩
  cases fill with
  | none =>
    exact ⟨_, data_alloc_nomem A ep peer base_msg ep_addr_str peer_addr_str err h ptr,
      by simp, fun hne => absurd rfl hne, hnofail, hzero⟩
  | some junk =>
    have hsp := data_alloc_spec A ep peer base_msg ep_addr_str peer_addr_str err junk h ptr hA
      hB _ rfl
    rw [if_neg hlen, if_neg hlen] at hsp
    refine ⟨_, hsp, ?_, fun _ => ⟨?_, rfl, rfl⟩, hnofail, hzero⟩
    · simp
    · simp

/-- Witness of C14: the worked example, whose address texts have nine characters. -/
theorem data_alloc_fails_iff_nomem_witness :
    (CONN_INFO_MAX_LENGTH 96 ≤ INT_MAX ∧
      ex_base.chars.length + CONN_INFO_MAX_LENGTH 96 + 2 < 2 ^ 64 ∧
      ex_local.chars.length < 96 ∧ ex_peer.chars.length < 96) ∧
    ∃ r, efa_rdm_error_data_alloc 96 ex_ep none ex_base ex_local ex_peer 0 (some ex_junk)
        ex_heap none = some r ∧
      (r.ret = 0 ↔ some ex_junk = none) ∧
      (some ex_junk ≠ none →
        0 < r.ret ∧ r.ret = ex_base.chars.length + CONN_INFO_MAX_LENGTH 96 + 2 ∧
        r.ptr = some ex_heap.next) ∧
      (¬ ∃ (buf : Mem) (off : Nat) (b : Mem),
        efa_rdm_error_write_conn_str 96 (some ex_local) (some ex_peer) ex_ep.host_id
          (peer_host_id none) buf off = some (-1, b)) ∧
      (∀ (buf : Mem) (off : Nat), off + CONN_INFO_MAX_LENGTH 96 ≤ buf.length →
        ∃ b, efa_rdm_error_write_conn_str 96 (some ex_local) (some ex_peer) ex_ep.host_id
          (peer_host_id none) buf off = some (0, b)) :=
  ⟨⟨by set_option maxRecDepth 100000 in decide, by set_option maxRecDepth 100000 in decide,
      by decide, by decide⟩,
    data_alloc_fails_iff_nomem 96 ex_ep none ex_base ex_local ex_peer 0 (some ex_junk) ex_heap
      none (by set_option maxRecDepth 100000 in decide)
      (by set_option maxRecDepth 100000 in decide) (by decide) (by decide)⟩

/-! ## The builder: two calls on the same inputs -/

/-- Counterexample to C11 as stated: the worked example run twice, on the same inputs and
with an allocator that does not fail, once in a fresh block of `x` bytes and once in a fresh
block of `y` bytes.  Both calls return `318`, and the two blocks of `318` bytes differ: byte
`119`, the first after the terminator, is `x` in one and `y` in the other. -/
theorem data_alloc_blocks_differ :
    efa_rdm_error_data_alloc 96 ex_ep none ex_base ex_local ex_peer 0 (some ex_junk) ex_heap none
        = some ex_outcome ∧
      efa_rdm_error_data_alloc 96 ex_ep none ex_base ex_local ex_peer 0 (some ex_junk_y) ex_heap
        none = some ex_outcome_y ∧
      ex_outcome.ret = 318 ∧ ex_outcome_y.ret = 318 ∧
      ex_outcome.ptr = some 0 ∧ ex_outcome_y.ptr = some 0 ∧
      ex_outcome.heap.load 0 = some (ex_output ++ NUL :: List.replicate 199 'x') ∧
      ex_outcome_y.heap.load 0 = some (ex_output ++ NUL :: List.replicate 199 'y') ∧
      (ex_output ++ NUL :: List.replicate 199 'x')[119]? = some 'x' ∧
      (ex_output ++ NUL :: List.replicate 199 'y')[119]? = some 'y' ∧
      ex_output ++ NUL :: List.replicate 199 'x' ≠ ex_output ++ NUL :: List.replicate 199 'y' := by
  refine ⟨?_, ?_, ?_, ?_, ?_, ?_, ?_, ?_, ?_, ?_, ?_⟩
  · set_option maxRecDepth 100000 in decide
  · set_option maxRecDepth 100000 in decide
  · decide
  · decide
  · decide
  · decide
  · set_option maxRecDepth 100000 in decide
  · set_option maxRecDepth 100000 in decide
  · set_option maxRecDepth 100000 in decide
  · set_option maxRecDepth 100000 in decide
  · set_option maxRecDepth 100000 in decide

/-- C11, amended.  Two calls of `efa_rdm_error_data_alloc` with an allocator that does not
fail and the same base text, local address text, peer address text, local host id and peer
host id return the same length, whatever the `err` arguments, the allocator states, the
initial contents of the fresh blocks and the old values of `*ptr`.  When that length is not
`0`, the two blocks handed back have the same size, hold the same C string, and agree on
every byte up to and including its terminator. -/
theorem data_alloc_deterministic (A : Nat) (ep1 ep2 : rxr_ep) (peer1 peer2 : Option efa_rdm_peer)
    (base_msg ep_addr_str peer_addr_str : CStr) (err1 err2 : Int) (junk1 junk2 : Nat → Char)
    (h1 h2 : Heap) (ptr1 ptr2 : Option Nat) (hA : CONN_INFO_MAX_LENGTH A ≤ INT_MAX)
    (hB : base_msg.chars.length + CONN_INFO_MAX_LENGTH A + 2 < 2 ^ 64)
    (hep : ep1.host_id = ep2.host_id) (hpeer : peer_host_id peer1 = peer_host_id peer2) :
    ∃ (r1 r2 : Outcome),
      efa_rdm_error_data_alloc A ep1 peer1 base_msg ep_addr_str peer_addr_str err1 (some junk1)
          h1 ptr1 = some r1 ∧
        efa_rdm_error_data_alloc A ep2 peer2 base_msg ep_addr_str peer_addr_str err2
          (some junk2) h2 ptr2 = some r2 ∧
        r1.ret = r2.ret ∧
        (r1.ret = 0 → r1.ptr = ptr1 ∧ r2.ptr = ptr2) ∧
        (r1.ret ≠ 0 →
          ∃ (m1 m2 : Mem) (k : Nat),
            r1.ptr = some h1.next ∧ r2.ptr = some h2.next ∧
              r1.heap.load h1.next = some m1 ∧ r2.heap.load h2.next = some m2 ∧
              m1.length = r1.ret ∧ m2.length = r2.ret ∧
              strlen m1 0 = some k ∧ strlen m2 0 = some k ∧
              cstr m1 0 = cstr m2 0 ∧
              m1.take (k + 1) = m2.take (k + 1)) := by
  have hM := CONN_INFO_MAX_LENGTH_eq A
  have hs1 := data_alloc_spec A ep1 peer1 base_msg ep_addr_str peer_addr_str err1 junk1 h1 ptr1
    hA hB _ rfl
  have hs2 := data_alloc_spec A ep2 peer2 base_msg ep_addr_str peer_addr_str err2 junk2 h2 ptr2
    hA hB _ rfl
  rw [← hep, ← hpeer] at hs2
  have hnt := conn_text_nonul ep_addr_str.chars (host_id_token ep1.host_id) peer_addr_str.chars
    (host_id_token (peer_host_id peer1)) ep_addr_str.nonul (host_id_token_nonul _)
    peer_addr_str.nonul (host_id_token_nonul _)
  generalize conn_text ep_addr_str.chars (host_id_token ep1.host_id) peer_addr_str.chars
    (host_id_token (peer_host_id peer1)) = text at hs1 hs2 hnt
  by_cases hfail : CONN_INFO_MAX_LENGTH A ≤ text.length
  · rw [if_pos hfail, if_pos hfail] at hs1 hs2
    exact ⟨_, _, hs1, hs2, rfl, fun _ => ⟨rfl, rfl⟩, fun hne => absurd rfl hne⟩
  · rw [if_neg hfail, if_neg hfail] at hs1 hs2
    have hnn : NUL ∉ base_msg.chars ++ ' ' :: text.take (CONN_INFO_MAX_LENGTH A - 1) := by
      simp only [List.mem_append, List.mem_cons, not_or]
      exact ⟨base_msg.nonul, by decide, fun hc => hnt (List.mem_of_mem_take hc)⟩
    have e : ∀ rest : List Char,
        base_msg.chars ++ ' ' :: (text.take (CONN_INFO_MAX_LENGTH A - 1) ++ NUL :: rest)
          = (base_msg.chars ++ ' ' :: text.take (CONN_INFO_MAX_LENGTH A - 1)) ++ NUL :: rest := by
      intro rest; simp
    have etake : ∀ rest : List Char,
        ((base_msg.chars ++ ' ' :: text.take (CONN_INFO_MAX_LENGTH A - 1)) ++ NUL :: rest).take
            ((base_msg.chars ++ ' ' :: text.take (CONN_INFO_MAX_LENGTH A - 1)).length + 1)
          = (base_msg.chars ++ ' ' :: text.take (CONN_INFO_MAX_LENGTH A - 1)) ++ [NUL] := by
      intro rest
      have : (base_msg.chars ++ ' ' :: text.take (CONN_INFO_MAX_LENGTH A - 1)) ++ NUL :: rest
          = ((base_msg.chars ++ ' ' :: text.take (CONN_INFO_MAX_LENGTH A - 1)) ++ [NUL])
            ++ rest := by simp
      rw [this]
      exact List.take_left' (by simp; omega)
    have hlen : ∀ junk : Nat → Char,
        (base_msg.chars ++ ' ' :: (text.take (CONN_INFO_MAX_LENGTH A - 1) ++ NUL ::
          ((List.range (base_msg.chars.length + CONN_INFO_MAX_LENGTH A + 2)).map junk).drop
            (base_msg.chars.length + min (CONN_INFO_MAX_LENGTH A - 1) text.length + 2))).length
          = base_msg.chars.length + CONN_INFO_MAX_LENGTH A + 2 := by
      intro junk
      simp
      omega
    refine ⟨_, _, hs1, hs2, rfl, fun h0 => ?_, fun _ => ?_⟩
    · simp only at h0
      omega
    · refine ⟨base_msg.chars ++ ' ' :: (text.take (CONN_INFO_MAX_LENGTH A - 1) ++ NUL ::
          ((List.range (base_msg.chars.length + CONN_INFO_MAX_LENGTH A + 2)).map junk1).drop
            (base_msg.chars.length + min (CONN_INFO_MAX_LENGTH A - 1) text.length + 2)),
        base_msg.chars ++ ' ' :: (text.take (CONN_INFO_MAX_LENGTH A - 1) ++ NUL ::
          ((List.range (base_msg.chars.length + CONN_INFO_MAX_LENGTH A + 2)).map junk2).drop
            (base_msg.chars.length + min (CONN_INFO_MAX_LENGTH A - 1) text.length + 2)),
        (base_msg.chars ++ ' ' :: text.take (CONN_INFO_MAX_LENGTH A - 1)).length,
        rfl, rfl, ?_, ?_, hlen junk1, hlen junk2, ?_, ?_, ?_, ?_⟩
      · simp [Heap.load, List.lookup]
      · simp [Heap.load, List.lookup]
      · rw [e]
        exact strlen_terminated _ _ hnn
      · rw [e]
        exact strlen_terminated _ _ hnn
      · rw [e, e, cstr_terminated _ _ hnn, cstr_terminated _ _ hnn]
      · rw [e, e, etake, etake]

/-- Witness of C11: the worked example run twice, with different `err`, allocator state,
initial block contents and old `*ptr`, and with a peer lookup that finds nothing in one call
and a descriptor with host id `0` in the other. -/
theorem data_alloc_deterministic_witness :
    (CONN_INFO_MAX_LENGTH 96 ≤ INT_MAX ∧
      ex_base.chars.length + CONN_INFO_MAX_LENGTH 96 + 2 < 2 ^ 64 ∧
      ex_ep.host_id = ex_ep.host_id ∧
      peer_host_id none = peer_host_id (some { host_id := 0 })) ∧
    ∃ (r1 r2 : Outcome),
      efa_rdm_error_data_alloc 96 ex_ep none ex_base ex_local ex_peer 0 (some ex_junk)
          ex_heap none = some r1 ∧
        efa_rdm_error_data_alloc 96 ex_ep (some { host_id := 0 }) ex_base ex_local ex_peer 22
          (some ex_junk_y) ex_outcome.heap (some 0) = some r2 ∧
        r1.ret = r2.ret ∧
        (r1.ret = 0 → r1.ptr = none ∧ r2.ptr = some 0) ∧
        (r1.ret ≠ 0 →
          ∃ (m1 m2 : Mem) (k : Nat),
            r1.ptr = some ex_heap.next ∧ r2.ptr = some ex_outcome.heap.next ∧
              r1.heap.load ex_heap.next = some m1 ∧
              r2.heap.load ex_outcome.heap.next = some m2 ∧
              m1.length = r1.ret ∧ m2.length = r2.ret ∧
              strlen m1 0 = some k ∧ strlen m2 0 = some k ∧
              cstr m1 0 = cstr m2 0 ∧
              m1.take (k + 1) = m2.take (k + 1)) :=
  ⟨⟨by set_option maxRecDepth 100000 in decide, by set_option maxRecDepth 100000 in decide,
      rfl, rfl⟩,
    data_alloc_deterministic 96 ex_ep ex_ep none (some { host_id := 0 }) ex_base ex_local
      ex_peer 0 22 ex_junk ex_junk_y ex_heap ex_outcome.heap none (some 0)
      (by set_option maxRecDepth 100000 in decide)
      (by set_option maxRecDepth 100000 in decide) rfl rfl⟩

/-! ## Address texts that fit -/

theorem conn_text_fits (A : Nat) (a1 a2 : Option CStr) (h1 h2 : Nat)
    (hl1 : ∀ s, a1 = some s → s.chars.length ≤ A)
    (hl2 : ∀ s, a2 = some s → s.chars.length ≤ A) :
    (conn_text (addr_or_na a1) (host_id_token h1) (addr_or_na a2) (host_id_token h2)).length
      < CONN_INFO_MAX_LENGTH A := by
  have e1 := addr_or_na_length_le A a1 hl1
  have e2 := addr_or_na_length_le A a2 hl2
  have t1 := host_id_token_length_le h1
  have t2 := host_id_token_length_le h2
  rw [conn_text_length, CONN_INFO_MAX_LENGTH_eq]
  omega

/-- C9.  `efa_rdm_error_write_host_id_str(0, buf)` fails: it returns `-1` and leaves `buf`
alone.  `efa_rdm_error_write_conn_str` then puts the literal `N/A` in the place of that
token: for all addresses (absent, or of length at most `OFI_ADDRSTRLEN`) and every other
host id, the formatter returns `0`, and the text it leaves in the buffer contains
`Local host id: N/A` when the local host id is zero and ends in `Peer host id: N/A` when the
peer host id is zero. -/
theorem write_conn_str_zero_host_id (A : Nat) (a1 a2 : Option CStr) (h1 h2 : Nat) (buf : Mem)
    (off : Nat) (hA : CONN_INFO_MAX_LENGTH A ≤ INT_MAX)
    (hroom : off + CONN_INFO_MAX_LENGTH A ≤ buf.length)
    (hl1 : ∀ s, a1 = some s → s.chars.length ≤ A)
    (hl2 : ∀ s, a2 = some s → s.chars.length ≤ A) :
    (∀ scratch : Mem, efa_rdm_error_write_host_id_str 0 scratch = some (-1, scratch)) ∧
      host_id_token 0 = NA_STR ∧
      ∃ b : Mem,
        efa_rdm_error_write_conn_str A a1 a2 h1 h2 buf off = some (0, b) ∧
          (h1 = 0 → "Local host id: N/A".toList <:+: cstr b off) ∧
          (h2 = 0 → "Peer host id: N/A".toList <:+ cstr b off) := by
  have hlen := conn_text_fits A a1 a2 h1 h2 hl1 hl2
  have hsp := write_conn_str_spec A a1 a2 h1 h2 buf off hA hroom
  rw [if_neg (by omega)] at hsp
  generalize List.take off buf ++
    ((conn_text (addr_or_na a1) (host_id_token h1) (addr_or_na a2)
        (host_id_token h2)).take (CONN_INFO_MAX_LENGTH A - 1) ++ [NUL]) ++
    buf.drop (off + (min (CONN_INFO_MAX_LENGTH A - 1)
      (conn_text (addr_or_na a1) (host_id_token h1) (addr_or_na a2)
        (host_id_token h2)).length + 1)) = b at hsp
  obtain ⟨_, _, _, hl, hp⟩ := conn_str_na_of_success A a1 a2 h1 h2 buf off b hsp
  exact ⟨write_host_id_str_zero, host_id_token_zero, b, hsp, hl, hp⟩

/-- Witness of C9: a local address as long as `OFI_ADDRSTRLEN` allows, a `NULL` peer
address and both host ids zero. -/
theorem write_conn_str_zero_host_id_witness :
    (CONN_INFO_MAX_LENGTH 96 ≤ INT_MAX ∧
      0 + CONN_INFO_MAX_LENGTH 96 ≤ (List.replicate 284 'x').length ∧
      (∀ s, some ex_full = some s → s.chars.length ≤ 96) ∧
      (∀ s : CStr, none = some s → s.chars.length ≤ 96)) ∧
    ((∀ scratch : Mem, efa_rdm_error_write_host_id_str 0 scratch = some (-1, scratch)) ∧
      host_id_token 0 = NA_STR ∧
      ∃ b : Mem,
        efa_rdm_error_write_conn_str 96 (some ex_full) none 0 0 (List.replicate 284 'x') 0
            = some (0, b) ∧
          (0 = 0 → "Local host id: N/A".toList <:+: cstr b 0) ∧
          (0 = 0 → "Peer host id: N/A".toList <:+ cstr b 0)) :=
  ⟨⟨by decide, by rw [List.length_replicate]; decide,
      fun s hs => by cases hs; exact (List.length_replicate 96 'a').le,
      fun s hs => by cases hs⟩,
    write_conn_str_zero_host_id 96 (some ex_full) none 0 0 (List.replicate 284 'x') 0
      (by decide) (by rw [List.length_replicate]; decide)
      (fun s hs => by cases hs; exact (List.length_replicate 96 'a').le)
      (fun s hs => by cases hs)⟩

/-! ## The builder: live allocations -/

end EfaRdmError
